import Mathlib

/-!
Shallow embedding of the pobsd-lib repository (the revision wired through
src/lib.rs: modules models, parsing and db), together with theorems that
settle the frozen claims about its specification.

Conventions of the embedding:
* Rust String is Lean String; byte-level operations are modelled at the
  level of character lists, which agrees with the byte level on ASCII data
  and preserves ordering on all UTF-8 data.
* Rust u32 and usize are Nat (with explicit mod 2^32 where overflow can
  occur, namely in the FNV hash).
* HashMap is modelled as an association list with first-match lookup;
  insertion overwrites the first matching key, mirroring HashMap::insert,
  and bucket update mirrors get_mut / insert of the Rust source.
* chrono NaiveDate is a year/month/day record; parsing follows the
  %Y-%m-%d format with the lenient unwrap_or_default fallback of the
  source.
-/

namespace Pobsd

/-! ### Character-list string utilities (Rust str operations) -/

/-- Rust str split_once on a single character: first occurrence. -/
def splitOnce (c : Char) : List Char → Option (List Char × List Char)
  | [] => none
  | x :: xs =>
    if x = c then some ([], xs)
    else (splitOnce c xs).map (fun p => (x :: p.1, p.2))

/-- Rust str split on a single character (keeps empty segments). -/
def splitChar (c : Char) : List Char → List (List Char)
  | [] => [[]]
  | x :: xs =>
    if x = c then [] :: splitChar c xs
    else
      match splitChar c xs with
      | [] => [[x]]
      | s :: ss => (x :: s) :: ss

/-- Rust char is_whitespace restricted to ASCII (the data is ASCII). -/
def isWS (c : Char) : Bool := c = ' ' || c = '\t' || c = '\n' || c = '\r'

/-- Rust str trim: drop whitespace from both ends. -/
def charTrim (l : List Char) : List Char :=
  ((l.dropWhile isWS).reverse.dropWhile isWS).reverse

/-- Trim wrapper on String. -/
def strTrim (s : String) : String := String.mk (charTrim s.data)

/-- Decides whether the pattern list occurs as a contiguous segment. -/
def hasSegment (pat : List Char) : List Char → Bool
  | [] => pat.isEmpty
  | x :: xs => pat.isPrefixOf (x :: xs) || hasSegment pat xs

/-- Rust str contains (substring containment). -/
def strContainsB (s pat : String) : Bool := hasSegment pat.data s.data

/-- Rust str starts_with. -/
def strStartsWith (s pre : String) : Bool := pre.data.isPrefixOf s.data

/-- Drop of the first characters of a string. -/
def strDrop (s : String) (n : Nat) : String := String.mk (s.data.drop n)

/-- Take of the first characters of a string. -/
def strTake (s : String) (n : Nat) : String := String.mk (s.data.take n)

/-- ASCII lowercase conversion of one character (the data is ASCII; the
Unicode cases of Rust to_lowercase do not arise). -/
def lowerChar (c : Char) : Char :=
  match c with
  | 'A' => 'a' | 'B' => 'b' | 'C' => 'c' | 'D' => 'd' | 'E' => 'e'
  | 'F' => 'f' | 'G' => 'g' | 'H' => 'h' | 'I' => 'i' | 'J' => 'j'
  | 'K' => 'k' | 'L' => 'l' | 'M' => 'm' | 'N' => 'n' | 'O' => 'o'
  | 'P' => 'p' | 'Q' => 'q' | 'R' => 'r' | 'S' => 's' | 'T' => 't'
  | 'U' => 'u' | 'V' => 'v' | 'W' => 'w' | 'X' => 'x' | 'Y' => 'y'
  | 'Z' => 'z' | c => c

/-- Rust str to_lowercase. -/
def strToLower (s : String) : String := String.mk (s.data.map lowerChar)

/-- Lexicographic order on character lists by codepoint, which equals the
byte order Rust String comparison uses. -/
def charListLt : List Char → List Char → Bool
  | [], [] => false
  | [], _ :: _ => true
  | _ :: _, [] => false
  | a :: as, b :: bs =>
    if a.toNat < b.toNat then true
    else if b.toNat < a.toNat then false
    else charListLt as bs

/-- String::lt of Rust. -/
def strLtB (a b : String) : Bool := charListLt a.data b.data

/-- Join of string parts with a separator (the join of the source). -/
def joinWith (sep : List Char) : List (List Char) → List Char
  | [] => []
  | [x] => x
  | x :: y :: rest => x ++ sep ++ joinWith sep (y :: rest)

/-- Join wrapper on String. -/
def interJoin (sep : String) (parts : List String) : String :=
  String.mk (joinWith sep.data (parts.map String.data))

/-- Decimal digit characters of a natural number, most significant first. -/
def digitChar (d : Nat) : Char :=
  match d with
  | 0 => '0' | 1 => '1' | 2 => '2' | 3 => '3' | 4 => '4'
  | 5 => '5' | 6 => '6' | 7 => '7' | 8 => '8' | _ => '9'

/-- Little-endian digit characters of a positive number, with explicit
fuel so that the kernel can evaluate it. -/
def natDigitsAux : Nat → Nat → List Char
  | 0, _ => []
  | _ + 1, 0 => []
  | fuel + 1, n => digitChar (n % 10) :: natDigitsAux fuel (n / 10)

/-- Decimal representation of a natural number, most significant first. -/
def natDigits (n : Nat) : List Char :=
  if n = 0 then ['0'] else (natDigitsAux n n).reverse

/-- Numeric value of a big-endian digit character list. -/
def digitsVal (cs : List Char) : Nat :=
  cs.foldl (fun a c => a * 10 + (c.toNat - 48)) 0

/-- Rust str parse::<usize>() on an unsigned decimal string. -/
def digitsToNat (cs : List Char) : Option Nat :=
  if cs ≠ [] ∧ cs.all Char.isDigit then some (digitsVal cs) else none

/-- Parse wrapper on String, modelling str::parse::<usize>(). -/
def strToNatOpt (s : String) : Option Nat := digitsToNat s.data

/-- Left pad a digit list with zeros up to the given width. -/
def padDigits (w : Nat) (ds : List Char) : List Char :=
  List.replicate (w - ds.length) '0' ++ ds

/-! ### Calendar dates (chrono NaiveDate as used by the source) -/

/-- Calendar date record modelling chrono NaiveDate. -/
structure NDate where
  year : Nat
  month : Nat
  day : Nat
deriving DecidableEq

/-- Default date, the epoch 1970-01-01 (NaiveDate::default). -/
def NDate.default : NDate := ⟨1970, 1, 1⟩

/-- Gregorian leap year test. -/
def isLeap (y : Nat) : Bool := (y % 4 = 0 && y % 100 ≠ 0) || y % 400 = 0

/-- Number of days of a month (0 for an invalid month). -/
def daysInMonth (y m : Nat) : Nat :=
  match m with
  | 1 => 31 | 3 => 31 | 5 => 31 | 7 => 31 | 8 => 31 | 10 => 31 | 12 => 31
  | 4 => 30 | 6 => 30 | 9 => 30 | 11 => 30
  | 2 => if isLeap y then 29 else 28
  | _ => 0

/-- Validity of a calendar date (what chrono NaiveDate can represent). -/
def validDate (d : NDate) : Bool :=
  1 ≤ d.month && d.month ≤ 12 && 1 ≤ d.day && d.day ≤ daysInMonth d.year d.month

/-- Formatting with the %Y-%m-%d format string of the source. -/
def formatDate (d : NDate) : String :=
  String.mk (padDigits 4 (natDigits d.year) ++ '-' ::
    (padDigits 2 (natDigits d.month) ++ '-' :: padDigits 2 (natDigits d.day)))

/-- Parsing with the %Y-%m-%d format; any failure yields the epoch,
modelling parse_from_str(..).unwrap_or_default() of the source. -/
def parseDate (s : String) : NDate :=
  match splitChar '-' s.data with
  | [ys, ms, ds] =>
    match digitsToNat ys, digitsToNat ms, digitsToNat ds with
    | some y, some m, some d =>
      if validDate ⟨y, m, d⟩ then ⟨y, m, d⟩ else NDate.default
    | _, _, _ => NDate.default
  | _ => NDate.default

/-! ### Game status (models/game_status.rs) -/

/-- Status levels of a game. -/
inductive Status where
  | unknown | doesNotRun | launches | majorBugs
  | mediumImpact | minorBugs | completable | perfect
deriving DecidableEq

/-- Status level together with the free-text comment. -/
structure GameStatus where
  status : Status
  message : Option String
deriving DecidableEq

/-- Default GameStatus: unknown level, no comment. -/
def GameStatus.default : GameStatus := ⟨Status.unknown, none⟩

/-- GameStatus::from_line of the source: a leading digit 0..6 selects the
level and the trimmed remainder becomes the comment. -/
def GameStatus.from_line (line : String) : GameStatus :=
  match line.data with
  | [] => ⟨Status.unknown, none⟩
  | c :: rest =>
    if c = '0' then ⟨Status.doesNotRun, some (String.mk (charTrim rest))⟩
    else if c = '1' then ⟨Status.launches, some (String.mk (charTrim rest))⟩
    else if c = '2' then ⟨Status.majorBugs, some (String.mk (charTrim rest))⟩
    else if c = '3' then ⟨Status.mediumImpact, some (String.mk (charTrim rest))⟩
    else if c = '4' then ⟨Status.minorBugs, some (String.mk (charTrim rest))⟩
    else if c = '5' then ⟨Status.completable, some (String.mk (charTrim rest))⟩
    else if c = '6' then ⟨Status.perfect, some (String.mk (charTrim rest))⟩
    else ⟨Status.unknown, none⟩

/-- PartialEq of GameStatus in the source compares only the level and
ignores the message. -/
def GameStatus.eqv (a b : GameStatus) : Bool := a.status == b.status

/-- Display of GameStatus: the level digit, a space, then the comment or
nothing; the unknown level renders as the empty string. -/
def GameStatus.render (g : GameStatus) : String :=
  match g.status with
  | Status.unknown => ""
  | Status.doesNotRun => String.mk ('0' :: ' ' :: (g.message.getD "").data)
  | Status.launches => String.mk ('1' :: ' ' :: (g.message.getD "").data)
  | Status.majorBugs => String.mk ('2' :: ' ' :: (g.message.getD "").data)
  | Status.mediumImpact => String.mk ('3' :: ' ' :: (g.message.getD "").data)
  | Status.minorBugs => String.mk ('4' :: ' ' :: (g.message.getD "").data)
  | Status.completable => String.mk ('5' :: ' ' :: (g.message.getD "").data)
  | Status.perfect => String.mk ('6' :: ' ' :: (g.message.getD "").data)

/-! ### Store links (models/store_links.rs) -/

/-- Known storefronts. -/
inductive StoreKind where
  | steam | gog | humbleBundle | itchIo | epic | unknown
deriving DecidableEq

/-- One store link: storefront kind, url, optional numeric store id. -/
structure StoreLink where
  store : StoreKind
  url : String
  id : Option Nat
deriving DecidableEq

/-- Template of the steam id regex prefix: the characters of
https literal store.steampowered.com/app/ where the regex dot positions
match any character (modelled by none). -/
def steamTemplate : List (Option Char) :=
  "https://store.steampowered.com/app/".data.map (fun c =>
    if c = '.' then none else some c)

/-- Whether the template matches at the head of the character list,
returning the remainder on success. -/
def matchTemplate : List (Option Char) → List Char → Option (List Char)
  | [], rest => some rest
  | _ :: _, [] => none
  | t :: ts, c :: cs =>
    match t with
    | none => matchTemplate ts cs
    | some tc => if c = tc then matchTemplate ts cs else none

/-- Leading digit run of a character list. -/
def digitRun (l : List Char) : List Char := l.takeWhile Char.isDigit

/-- Searches the leftmost match of the steam id pattern and extracts the
captured digit run, modelling the regex of get_steam_id. -/
def steamIdSearch : List Char → Option Nat
  | [] => none
  | c :: cs =>
    match matchTemplate steamTemplate (c :: cs) with
    | some rest =>
      match digitsToNat (digitRun rest) with
      | some n => some n
      | none => steamIdSearch cs
    | none => steamIdSearch cs

/-- get_steam_id of the source. -/
def get_steam_id (url : String) : Option Nat := steamIdSearch url.data

/-- StoreLink::from of the source: classify the url by substring match
against known storefront domain fragments. -/
def StoreLink.fromUrl (url : String) : StoreLink :=
  if strContainsB url "steampowered" then
    ⟨StoreKind.steam, url, get_steam_id url⟩
  else if strContainsB url "gog.com" then ⟨StoreKind.gog, url, none⟩
  else if strContainsB url "humblebundle.com" then
    ⟨StoreKind.humbleBundle, url, none⟩
  else if strContainsB url "itch.io" then ⟨StoreKind.itchIo, url, none⟩
  else if strContainsB url "epicgames.com" then ⟨StoreKind.epic, url, none⟩
  else ⟨StoreKind.unknown, url, none⟩

/-- Display of StoreLinks: the urls joined with single spaces. -/
def renderStoreLinks (links : List StoreLink) : String :=
  interJoin " " (links.map StoreLink.url)

/-! ### Line classification (models/field.rs and split_line) -/

/-- split_line of the source: split on the first tab; an empty line gives
no label, an empty right hand side counts as absent. -/
def split_line (line : String) : Option String × Option String :=
  if line = "" then (none, none)
  else
    match splitOnce '\t' line.data with
    | none => (some line, none)
    | some (l, r) =>
      if r = [] then (some (String.mk l), none)
      else (some (String.mk l), some (String.mk r))

/-- Comma-separated list payload: split on commas, trim each item. -/
def commaSplit (s : String) : List String :=
  (splitChar ',' s.data).map (fun l => String.mk (charTrim l))

/-- Space-separated store payload: split on single spaces, trim each token
and classify it as a store link. -/
def storeSplit (s : String) : List StoreLink :=
  (splitChar ' ' s.data).map (fun l =>
    StoreLink.fromUrl (String.mk (charTrim l)))

/-- Field enum of the source: one variant per recognized line label. -/
inductive Field where
  | game (p : Option String)
  | cover (p : Option String)
  | engine (p : Option String)
  | setup (p : Option String)
  | runtime (p : Option String)
  | hints (p : Option String)
  | dev (p : Option (List String))
  | publi (p : Option (List String))
  | version (p : Option String)
  | status (s : GameStatus)
  | store (p : Option (List StoreLink))
  | genres (p : Option (List String))
  | tags (p : Option (List String))
  | year (p : Option String)
  | added (d : NDate)
  | updated (d : NDate)
  | igdbId (p : Option Nat)
  | unknown (p : Option String)
deriving DecidableEq

/-- Field::from of the source: classify one line of the database. -/
def Field.fromLine (line : String) : Field :=
  match split_line line with
  | (none, _) => Field.unknown none
  | (some left, right) =>
    if left = "Game" then Field.game right
    else if left = "Cover" then Field.cover right
    else if left = "Engine" then Field.engine right
    else if left = "Setup" then Field.setup right
    else if left = "Runtime" then Field.runtime right
    else if left = "Hints" then Field.hints right
    else if left = "Dev" then Field.dev (right.map commaSplit)
    else if left = "Pub" then Field.publi (right.map commaSplit)
    else if left = "Version" then Field.version right
    else if left = "Status" then
      Field.status (match right with
        | some r => GameStatus.from_line r
        | none => GameStatus.default)
    else if left = "Store" then Field.store (right.map storeSplit)
    else if left = "Genre" then Field.genres (right.map commaSplit)
    else if left = "Tags" then Field.tags (right.map commaSplit)
    else if left = "Year" then Field.year right
    else if left = "Added" then
      Field.added (match right with
        | some r => parseDate r
        | none => NDate.default)
    else if left = "Updated" then
      Field.updated (match right with
        | some r => parseDate r
        | none => NDate.default)
    else if left = "IgdbId" then
      Field.igdbId (match right with
        | some r => strToNatOpt r
        | none => none)
    else Field.unknown (some left)

/-- field_name of the source. -/
def Field.fieldName : Field → String
  | .game _ => "Game"
  | .cover _ => "Cover"
  | .engine _ => "Engine"
  | .setup _ => "Setup"
  | .runtime _ => "Runtime"
  | .hints _ => "Hints"
  | .dev _ => "Dev"
  | .publi _ => "Pub"
  | .version _ => "Version"
  | .status _ => "Status"
  | .store _ => "Store"
  | .genres _ => "Genre"
  | .tags _ => "Tags"
  | .year _ => "Year"
  | .added _ => "Added"
  | .updated _ => "Updated"
  | .igdbId _ => "IgdbId"
  | .unknown _ => "Unknown field"

/-- Helper for Display: label, tab, payload. -/
def labelWith (label payload : String) : String :=
  String.mk (label.data ++ '\t' :: payload.data)

/-- Display of a comma list payload: items joined with a comma-space. -/
def joinComma (items : List String) : String := interJoin ", " items

/-- Display for Field of the source: a field with an absent payload
renders as just the label, otherwise label, tab and payload. -/
def Field.render : Field → String
  | .game p => match p with
    | some s => labelWith "Game" s
    | none => "Game"
  | .cover p => match p with
    | some s => labelWith "Cover" s
    | none => "Cover"
  | .engine p => match p with
    | some s => labelWith "Engine" s
    | none => "Engine"
  | .setup p => match p with
    | some s => labelWith "Setup" s
    | none => "Setup"
  | .runtime p => match p with
    | some s => labelWith "Runtime" s
    | none => "Runtime"
  | .hints p => match p with
    | some s => labelWith "Hints" s
    | none => "Hints"
  | .dev p => match p with
    | some items => labelWith "Dev" (joinComma items)
    | none => "Dev"
  | .publi p => match p with
    | some items => labelWith "Pub" (joinComma items)
    | none => "Pub"
  | .version p => match p with
    | some s => labelWith "Version" s
    | none => "Version"
  | .status gs => match gs.status with
    | Status.unknown => "Status"
    | _ => labelWith "Status" gs.render
  | .store p => match p with
    | some links => labelWith "Store" (renderStoreLinks links)
    | none => "Store"
  | .genres p => match p with
    | some items => labelWith "Genre" (joinComma items)
    | none => "Genre"
  | .tags p => match p with
    | some items => labelWith "Tags" (joinComma items)
    | none => "Tags"
  | .year p => match p with
    | some s => labelWith "Year" s
    | none => "Year"
  | .added d => labelWith "Added" (formatDate d)
  | .updated d => labelWith "Updated" (formatDate d)
  | .igdbId p => match p with
    | some n => labelWith "IgdbId" (String.mk (natDigits n))
    | none => "IgdbId"
  | .unknown p => match p with
    | some s => String.mk ("Unknown field ".data ++ s.data)
    | none => "Unexpected pattern"

/-- Derived PartialEq of Field: structural on every variant, except that
the status variant uses the PartialEq of GameStatus which ignores the
comment message. -/
def Field.eqv : Field → Field → Bool
  | .game a, .game b => a == b
  | .cover a, .cover b => a == b
  | .engine a, .engine b => a == b
  | .setup a, .setup b => a == b
  | .runtime a, .runtime b => a == b
  | .hints a, .hints b => a == b
  | .dev a, .dev b => a == b
  | .publi a, .publi b => a == b
  | .version a, .version b => a == b
  | .status a, .status b => GameStatus.eqv a b
  | .store a, .store b => a == b
  | .genres a, .genres b => a == b
  | .tags a, .tags b => a == b
  | .year a, .year b => a == b
  | .added a, .added b => a == b
  | .updated a, .updated b => a == b
  | .igdbId a, .igdbId b => a == b
  | .unknown a, .unknown b => a == b
  | _, _ => false

/-! ### Game record (models/game.rs) -/

/-- Search mode: case sensitive or not. -/
inductive SearchType where
  | caseSensitive
  | notCaseSensitive
deriving DecidableEq

/-- Game record of the source. -/
structure Game where
  uid : Nat
  name : String
  cover : Option String
  engine : Option String
  setup : Option String
  runtime : Option String
  stores : Option (List StoreLink)
  hints : Option String
  genres : Option (List String)
  tags : Option (List String)
  year : Option String
  devs : Option (List String)
  publis : Option (List String)
  version : Option String
  status : GameStatus
  added : NDate
  updated : NDate
  igdb_id : Option Nat
deriving DecidableEq

/-- Game::default of the source. -/
def Game.default : Game :=
  ⟨0, "", none, none, none, none, none, none, none, none, none, none,
   none, none, GameStatus.default, NDate.default, NDate.default, none⟩

/-- Derived PartialEq of Game: structural on every field except status,
which uses the PartialEq of GameStatus (comment ignored). -/
def Game.eqv (a b : Game) : Bool :=
  a.uid == b.uid && a.name == b.name && a.cover == b.cover &&
  a.engine == b.engine && a.setup == b.setup && a.runtime == b.runtime &&
  a.stores == b.stores && a.hints == b.hints && a.genres == b.genres &&
  a.tags == b.tags && a.year == b.year && a.devs == b.devs &&
  a.publis == b.publis && a.version == b.version &&
  GameStatus.eqv a.status b.status && a.added == b.added &&
  a.updated == b.updated && a.igdb_id == b.igdb_id

/-- get_ordering_name of the source: strip one of the four literal
prefixes, then lowercase. -/
def Game.get_ordering_name (g : Game) : String :=
  if strStartsWith g.name "the " then strToLower (strDrop g.name 4)
  else if strStartsWith g.name "The " then strToLower (strDrop g.name 4)
  else if strStartsWith g.name "a " then strToLower (strDrop g.name 2)
  else if strStartsWith g.name "A " then strToLower (strDrop g.name 2)
  else strToLower g.name

/-- Total order comparison of Rust String (byte order, which equals the
codepoint order used by the Lean String order). -/
def strCmp (a b : String) : Ordering :=
  if strLtB a b then Ordering.lt
  else if a = b then Ordering.eq
  else Ordering.gt

/-- Ord::cmp of Game: compares the ordering names. -/
def Game.cmp (a b : Game) : Ordering :=
  strCmp a.get_ordering_name b.get_ordering_name

/-- PartialOrd::lt of Game (String::lt on the ordering names). -/
def Game.ltB (a b : Game) : Bool := Game.cmp a b == Ordering.lt

/-- PartialOrd::le of Game. -/
def Game.leB (a b : Game) : Bool := Game.cmp a b != Ordering.gt

/-- PartialOrd::gt of Game. -/
def Game.gtB (a b : Game) : Bool := Game.cmp a b == Ordering.gt

/-- PartialOrd::ge of Game. -/
def Game.geB (a b : Game) : Bool := Game.cmp a b != Ordering.lt

/-- name_contains of the source. -/
def Game.name_contains (g : Game) (pattern : String) (st : SearchType) : Bool :=
  match st with
  | .caseSensitive => strContainsB g.name pattern
  | .notCaseSensitive => strContainsB (strToLower g.name) (strToLower pattern)

/-- Shared body of the single-valued contains methods. -/
def optContains (fld : Option String) (pattern : String) (st : SearchType) : Bool :=
  match st with
  | .caseSensitive =>
    match fld with
    | some v => strContainsB v pattern
    | none => false
  | .notCaseSensitive =>
    match fld with
    | some v => strContainsB (strToLower v) (strToLower pattern)
    | none => false

/-- Shared body of the list-valued contains methods: some list item
contains the pattern. -/
def arrContains (fld : Option (List String)) (pattern : String) (st : SearchType) : Bool :=
  match st with
  | .caseSensitive =>
    match fld with
    | some items => !(items.filter (fun x => strContainsB x pattern)).isEmpty
    | none => false
  | .notCaseSensitive =>
    match fld with
    | some items =>
      !(items.filter (fun x =>
        strContainsB (strToLower x) (strToLower pattern))).isEmpty
    | none => false

/-- engine_contains of the source. -/
def Game.engine_contains (g : Game) (p : String) (st : SearchType) : Bool :=
  optContains g.engine p st

/-- runtime_contains of the source. -/
def Game.runtime_contains (g : Game) (p : String) (st : SearchType) : Bool :=
  optContains g.runtime p st

/-- year_contains of the source. -/
def Game.year_contains (g : Game) (p : String) (st : SearchType) : Bool :=
  optContains g.year p st

/-- genres_contains of the source. -/
def Game.genres_contains (g : Game) (p : String) (st : SearchType) : Bool :=
  arrContains g.genres p st

/-- tags_contains of the source. -/
def Game.tags_contains (g : Game) (p : String) (st : SearchType) : Bool :=
  arrContains g.tags p st

/-- devs_contains of the source. -/
def Game.devs_contains (g : Game) (p : String) (st : SearchType) : Bool :=
  arrContains g.devs p st

/-- publis_contains of the source. -/
def Game.publis_contains (g : Game) (p : String) (st : SearchType) : Bool :=
  arrContains g.publis p st

/-! ### Parser (parsing/mod.rs and parser_macros.rs) -/

/-- Parser states: one per expected field plus Error and Recovering. -/
inductive ParserState where
  | game | cover | engine | setup | runtime | store | hints | genre
  | tags | year | dev | publi | version | status | added | updated
  | igdbId | error | recovering
deriving DecidableEq

/-- Parsing modes of the source. -/
inductive ParsingMode where
  | strict
  | relaxed
deriving DecidableEq

/-- Result of parsing, mirroring the ParserResult enum. -/
inductive ParserResult where
  | withError (games : List Game) (lines : List Nat)
  | withoutError (games : List Game)
deriving DecidableEq

/-- Games held by a ParserResult (the From impl of the source). -/
def ParserResult.games : ParserResult → List Game
  | .withError gs _ => gs
  | .withoutError gs => gs

/-- Error line numbers held by a ParserResult. -/
def ParserResult.errorLines : ParserResult → List Nat
  | .withError _ e => e
  | .withoutError _ => []

/-- Update of the last pushed game (games.last_mut of the source); none
when the list is empty. -/
def setLast (f : Game → Game) : List Game → Option (List Game)
  | [] => none
  | [g] => some [f g]
  | g :: g2 :: rest => (setLast f (g2 :: rest)).map (fun l => g :: l)

/-- One field-state transition of the macro-generated parse method: in a
field state the matching variant assigns its payload into the last game
and advances, anything else moves to Error; in the Game, Error and
Recovering states a Game field starts a fresh record, anything else moves
to Error (from the Game state) or Recovering (otherwise). -/
def parseStep (st : ParserState) (games : List Game) (field : Field) :
    ParserState × List Game :=
  match st with
  | .game | .error | .recovering =>
    match field with
    | .game name =>
      let g := Game.default
      let g := match name with
        | some n => { g with name := n }
        | none => g
      (ParserState.cover, games ++ [g])
    | _ =>
      (if st = ParserState.game then ParserState.error
       else ParserState.recovering, games)
  | .cover =>
    match field with
    | .cover p =>
      match setLast (fun g => { g with cover := p }) games with
      | some gs => (ParserState.engine, gs)
      | none => (ParserState.error, games)
    | _ => (ParserState.error, games)
  | .engine =>
    match field with
    | .engine p =>
      match setLast (fun g => { g with engine := p }) games with
      | some gs => (ParserState.setup, gs)
      | none => (ParserState.error, games)
    | _ => (ParserState.error, games)
  | .setup =>
    match field with
    | .setup p =>
      match setLast (fun g => { g with setup := p }) games with
      | some gs => (ParserState.runtime, gs)
      | none => (ParserState.error, games)
    | _ => (ParserState.error, games)
  | .runtime =>
    match field with
    | .runtime p =>
      match setLast (fun g => { g with runtime := p }) games with
      | some gs => (ParserState.store, gs)
      | none => (ParserState.error, games)
    | _ => (ParserState.error, games)
  | .store =>
    match field with
    | .store p =>
      match setLast (fun g => { g with stores := p }) games with
      | some gs => (ParserState.hints, gs)
      | none => (ParserState.error, games)
    | _ => (ParserState.error, games)
  | .hints =>
    match field with
    | .hints p =>
      match setLast (fun g => { g with hints := p }) games with
      | some gs => (ParserState.genre, gs)
      | none => (ParserState.error, games)
    | _ => (ParserState.error, games)
  | .genre =>
    match field with
    | .genres p =>
      match setLast (fun g => { g with genres := p }) games with
      | some gs => (ParserState.tags, gs)
      | none => (ParserState.error, games)
    | _ => (ParserState.error, games)
  | .tags =>
    match field with
    | .tags p =>
      match setLast (fun g => { g with tags := p }) games with
      | some gs => (ParserState.year, gs)
      | none => (ParserState.error, games)
    | _ => (ParserState.error, games)
  | .year =>
    match field with
    | .year p =>
      match setLast (fun g => { g with year := p }) games with
      | some gs => (ParserState.dev, gs)
      | none => (ParserState.error, games)
    | _ => (ParserState.error, games)
  | .dev =>
    match field with
    | .dev p =>
      match setLast (fun g => { g with devs := p }) games with
      | some gs => (ParserState.publi, gs)
      | none => (ParserState.error, games)
    | _ => (ParserState.error, games)
  | .publi =>
    match field with
    | .publi p =>
      match setLast (fun g => { g with publis := p }) games with
      | some gs => (ParserState.version, gs)
      | none => (ParserState.error, games)
    | _ => (ParserState.error, games)
  | .version =>
    match field with
    | .version p =>
      match setLast (fun g => { g with version := p }) games with
      | some gs => (ParserState.status, gs)
      | none => (ParserState.error, games)
    | _ => (ParserState.error, games)
  | .status =>
    match field with
    | .status p =>
      match setLast (fun g => { g with status := p }) games with
      | some gs => (ParserState.added, gs)
      | none => (ParserState.error, games)
    | _ => (ParserState.error, games)
  | .added =>
    match field with
    | .added p =>
      match setLast (fun g => { g with added := p }) games with
      | some gs => (ParserState.updated, gs)
      | none => (ParserState.error, games)
    | _ => (ParserState.error, games)
  | .updated =>
    match field with
    | .updated p =>
      match setLast (fun g => { g with updated := p }) games with
      | some gs => (ParserState.igdbId, gs)
      | none => (ParserState.error, games)
    | _ => (ParserState.error, games)
  | .igdbId =>
    match field with
    | .igdbId p =>
      match setLast (fun g => { g with igdb_id := p }) games with
      | some gs => (ParserState.game, gs)
      | none => (ParserState.error, games)
    | _ => (ParserState.error, games)

/-- Running state of the parsing loop: state, accumulated games, error
line numbers, and the current 1-based line counter. -/
structure PRun where
  state : ParserState
  games : List Game
  errorLines : List Nat
  currentLine : Nat
deriving DecidableEq

/-- Initial parser value (Parser::new). -/
def PRun.init : PRun := ⟨ParserState.game, [], [], 0⟩

/-- Main loop of load_from_string: parse each line, record the line
number whenever the state after the step is Error, and in strict mode
stop at the first such line. -/
def loadLoop (mode : ParsingMode) : PRun → List String → PRun
  | r, [] => r
  | r, l :: rest =>
    let ln := r.currentLine + 1
    let sg := parseStep r.state r.games (Field.fromLine l)
    if sg.1 = ParserState.error then
      let r2 : PRun := ⟨sg.1, sg.2, r.errorLines ++ [ln], ln⟩
      match mode with
      | .strict => r2
      | .relaxed => loadLoop mode r2 rest
    else loadLoop mode ⟨sg.1, sg.2, r.errorLines, ln⟩ rest

/-! ### Identifier hash (hash32 FnvHasher driven by std Hash)

The uid pass feeds the std Hash encoding of Some(date string) and then of
the name string into a 32-bit FNV-1a hasher.  The byte-level encoding of
the std Hash trait (variant discriminant byte, string bytes, string
terminator byte) is modelled here; its exact constants are irrelevant to
the claims, which only need a fixed deterministic function of the date
string and the name. -/

/-- One FNV-1a step on the 32-bit state. -/
def fnvStep (h b : Nat) : Nat := ((h ^^^ (b % 256)) * 16777619) % 4294967296

/-- FNV-1a over a byte list. -/
def fnvBytes (h : Nat) (bs : List Nat) : Nat := bs.foldl fnvStep h

/-- Hash encoding of a String (bytes then a terminator byte). -/
def strHashBytes (s : String) : List Nat := s.data.map Char.toNat ++ [255]

/-- Hash encoding of Some of a String (discriminant byte then the string
encoding). -/
def optStrHashBytes (s : String) : List Nat := 1 :: strHashBytes s

/-- Derived 32-bit identifier: FNV-1a over the encoded added date string
followed by the encoded name, exactly the accumulation order of
load_from_string. -/
def computeUid (name : String) (added : NDate) : Nat :=
  fnvBytes 2166136261 (optStrHashBytes (formatDate added) ++ strHashBytes name)

/-- Uid assignment applied to each assembled game after the loop. -/
def assignUid (g : Game) : Game :=
  { g with uid := computeUid g.name g.added }

/-- load_from_string of the source, over the list of input lines. -/
def loadFromLines (mode : ParsingMode) (lines : List String) : ParserResult :=
  let r := loadLoop mode PRun.init lines
  let games := r.games.map assignUid
  if r.errorLines.isEmpty then ParserResult.withoutError games
  else ParserResult.withError games r.errorLines

/-- Rust str lines(): split on newline, strip one trailing carriage
return per line, and do not yield a final empty segment. -/
def rustLines (s : String) : List String :=
  if s = "" then []
  else
    let parts := (splitChar '\n' s.data).map (fun l =>
      if l.getLast? = some '\r' then String.mk l.dropLast else String.mk l)
    if s.data.getLast? = some '\n' then parts.dropLast else parts

/-- load_from_string of the source, over the raw input string. -/
def load_from_string (mode : ParsingMode) (data : String) : ParserResult :=
  loadFromLines mode (rustLines data)

/-! ### Game filter (db/game_filer.rs) -/

/-- GameFilter of the source: optional per-field patterns. -/
structure GameFilter where
  name : Option String
  engine : Option String
  runtime : Option String
  genre : Option String
  tag : Option String
  year : Option String
  dev : Option String
  publi : Option String
  status : Option GameStatus
deriving DecidableEq

/-- GameFilter::default: nothing set. -/
def GameFilter.default : GameFilter :=
  ⟨none, none, none, none, none, none, none, none, none⟩

/-- check_game of the source: disjunction of the per-field checks, each
false when the pattern is not set. -/
def optHit {A : Type} (o : Option A) (f : A → Bool) : Bool :=
  match o with
  | some p => f p
  | none => false

/-- check_game of the source: disjunction of the per-field checks, each
false when the pattern is not set. -/
def GameFilter.check_game (f : GameFilter) (g : Game) (st : SearchType) : Bool :=
  let check_name := optHit f.name (fun p => g.name_contains p st)
  let check_engine := optHit f.engine (fun p => g.engine_contains p st)
  let check_runtime := optHit f.runtime (fun p => g.runtime_contains p st)
  let check_genre := optHit f.genre (fun p => g.genres_contains p st)
  let check_tag := optHit f.tag (fun p => g.tags_contains p st)
  let check_year := optHit f.year (fun p => g.year_contains p st)
  let check_dev := optHit f.dev (fun p => g.devs_contains p st)
  let check_publi := optHit f.publi (fun p => g.publis_contains p st)
  let check_status := optHit f.status (fun s => GameStatus.eqv g.status s)
  check_name || check_engine || check_runtime || check_genre || check_tag ||
    check_year || check_dev || check_publi || check_status

/-- filter_games of the source. -/
def GameFilter.filter_games (f : GameFilter) (games : List Game)
    (st : SearchType) : List Game :=
  games.filter (fun g => f.check_game g st)

/-- is_empty of the source: no pattern set. -/
def GameFilter.is_empty (f : GameFilter) : Bool :=
  f.name.isNone && f.engine.isNone && f.runtime.isNone && f.genre.isNone &&
  f.tag.isNone && f.year.isNone && f.dev.isNone && f.publi.isNone &&
  f.status.isNone

/-! ### Query result (db/query_result.rs) -/

/-- QueryResult of the source: a count together with the items. -/
structure QueryResult (T : Type) where
  count : Nat
  items : List T
deriving DecidableEq

/-- QueryResult::new of the source: wraps the vector with its length. -/
def QueryResult.new {T : Type} (items : List T) : QueryResult T :=
  ⟨items.length, items⟩

/-- get_game_by_name of the source: filter by exact name, then pop the
last element of the filtered vector. -/
def QueryResult.get_game_by_name (q : QueryResult Game) (name : String) :
    Option Game :=
  (q.items.filter (fun a => a.name == name)).getLast?

/-- get_item_by_name of the source: filter string items by equality, then
pop the last element. -/
def QueryResult.get_item_by_name (q : QueryResult String) (name : String) :
    Option String :=
  (q.items.filter (fun a => a == name)).getLast?

/-! ### Database (db/database.rs and db/queries.rs) -/

/-- Association-list model of HashMap from uid to Game: insert overwrites
the first binding of the key, otherwise appends. -/
def insertGame (m : List (Nat × Game)) (uid : Nat) (g : Game) :
    List (Nat × Game) :=
  match m with
  | [] => [(uid, g)]
  | (k, v) :: rest =>
    if k = uid then (uid, g) :: rest else (k, v) :: insertGame rest uid g

/-- Lookup in the uid map (first binding). -/
def lookupGame (m : List (Nat × Game)) (uid : Nat) : Option Game :=
  match m with
  | [] => none
  | (k, v) :: rest => if k = uid then some v else lookupGame rest uid

/-- Bucket maps from a field value to the uids carrying it. -/
abbrev Buckets := List (String × List Nat)

/-- add_game_to of the source: push the uid onto the existing bucket of
the item, or create a fresh singleton bucket. -/
def add_game_to (m : Buckets) (item : String) (game_id : Nat) : Buckets :=
  match m with
  | [] => [(item, [game_id])]
  | (k, v) :: rest =>
    if k = item then (k, v ++ [game_id]) :: rest
    else (k, v) :: add_game_to rest item game_id

/-- Bucket lookup (first binding). -/
def bucketGet (m : Buckets) (item : String) : Option (List Nat) :=
  match m with
  | [] => none
  | (k, v) :: rest => if k = item then some v else bucketGet rest item

/-- Pushes one uid for every element of a list-valued field. -/
def addAll (m : Buckets) (items : List String) (game_id : Nat) : Buckets :=
  match items with
  | [] => m
  | i :: rest => addAll (add_game_to m i game_id) rest game_id

/-- GameDataBase of the source: canonical uid map plus the seven
secondary indexes. -/
structure GameDataBase where
  games : List (Nat × Game)
  engines : Buckets
  runtimes : Buckets
  genres : Buckets
  tags : Buckets
  years : Buckets
  devs : Buckets
  publis : Buckets
deriving DecidableEq

/-- GameDataBase::default. -/
def GameDataBase.default : GameDataBase := ⟨[], [], [], [], [], [], [], []⟩

/-- Indexing of a single-valued field when present. -/
def indexSingle (b : Buckets) (v : Option String) (uid : Nat) : Buckets :=
  match v with
  | some item => add_game_to b item uid
  | none => b

/-- Indexing of a list-valued field when present. -/
def indexMany (b : Buckets) (v : Option (List String)) (uid : Nat) : Buckets :=
  match v with
  | some items => addAll b items uid
  | none => b

/-- load_game of the source: insert the game under its uid, refetch it,
then index every present field (single-valued: engine, runtime, year;
list-valued: devs, publis, genres, tags). -/
def GameDataBase.load_game (db : GameDataBase) (game : Game) : GameDataBase :=
  let uid := game.uid
  let games2 := insertGame db.games uid game
  match lookupGame games2 uid with
  | none => { db with games := games2 }
  | some g =>
    { games := games2
      engines := indexSingle db.engines g.engine g.uid
      runtimes := indexSingle db.runtimes g.runtime g.uid
      genres := indexMany db.genres g.genres g.uid
      tags := indexMany db.tags g.tags g.uid
      years := indexSingle db.years g.year g.uid
      devs := indexMany db.devs g.devs g.uid
      publis := indexMany db.publis g.publis g.uid }

/-- GameDataBase::new: load every game in input order. -/
def GameDataBase.new (games : List Game) : GameDataBase :=
  games.foldl GameDataBase.load_game GameDataBase.default

/-- Maps bucket uids to games, silently dropping missing uids (the for
loop of the match_games_by macro). -/
def collectGames (games : List (Nat × Game)) (ids : List Nat) : List Game :=
  ids.filterMap (fun id => lookupGame games id)

/-- Shared body of the macro-generated match_games_by methods. -/
def matchGamesBy (bucket : Buckets) (games : List (Nat × Game))
    (field : String) : QueryResult Game :=
  match bucketGet bucket field with
  | some game_ids => QueryResult.new (collectGames games game_ids)
  | none => QueryResult.new []

/-- match_games_by_tag of the source. -/
def GameDataBase.match_games_by_tag (db : GameDataBase) (field : String) :
    QueryResult Game :=
  matchGamesBy db.tags db.games field

/-- match_games_by_engine of the source. -/
def GameDataBase.match_games_by_engine (db : GameDataBase) (field : String) :
    QueryResult Game :=
  matchGamesBy db.engines db.games field

/-- match_games_by_runtime of the source. -/
def GameDataBase.match_games_by_runtime (db : GameDataBase) (field : String) :
    QueryResult Game :=
  matchGamesBy db.runtimes db.games field

/-- match_games_by_year of the source. -/
def GameDataBase.match_games_by_year (db : GameDataBase) (field : String) :
    QueryResult Game :=
  matchGamesBy db.years db.games field

/-- match_games_by_genre of the source. -/
def GameDataBase.match_games_by_genre (db : GameDataBase) (field : String) :
    QueryResult Game :=
  matchGamesBy db.genres db.games field

/-- match_games_by_dev of the source. -/
def GameDataBase.match_games_by_dev (db : GameDataBase) (field : String) :
    QueryResult Game :=
  matchGamesBy db.devs db.games field

/-- match_games_by_publi of the source. -/
def GameDataBase.match_games_by_publi (db : GameDataBase) (field : String) :
    QueryResult Game :=
  matchGamesBy db.publis db.games field

/-! ### Spec-side definitions used to compare claims against the code -/

/-- Ordering key in the shape of the specification text, restricted to
the four literal prefixes the code actually strips. -/
def normKey (s : String) : String :=
  if strStartsWith s "the " || strStartsWith s "The " then
    strToLower (strDrop s 4)
  else if strStartsWith s "a " || strStartsWith s "A " then
    strToLower (strDrop s 2)
  else strToLower s

/-- Modelled from the spec wording of claim C6: ordering key with a
case-insensitive strip of a leading article followed by a space.  This
definition follows the words of the claim, not the source, and is used
only to exhibit where claim and code disagree. -/
def specOrderKey (s : String) : String :=
  if strToLower (strTake s 4) = "the " then strToLower (strDrop s 4)
  else if strToLower (strTake s 2) = "a " then strToLower (strDrop s 2)
  else strToLower s

/-- Modelled from the spec wording of claim C5: every set pattern,
including the status pattern, matches its corresponding field by
substring containment; the status pattern and field are compared as
their rendered text, with the same case handling as the string fields.
This definition follows the words of the claim, not the source, and is
used only to exhibit where claim and code disagree. -/
def specStatusHit (field pat : GameStatus) (st : SearchType) : Bool :=
  match st with
  | .caseSensitive => strContainsB field.render pat.render
  | .notCaseSensitive =>
    strContainsB (strToLower field.render) (strToLower pat.render)

/-- Modelled from the spec wording of claim C5: check_game as the claim
states it, a disjunction of substring-containment checks across all set
patterns.  It agrees with the source on every field but the status,
where the source compares levels for equality instead. -/
def checkGameSpecC5 (f : GameFilter) (g : Game) (st : SearchType) : Bool :=
  optHit f.name (fun p => g.name_contains p st) ||
  optHit f.engine (fun p => g.engine_contains p st) ||
  optHit f.runtime (fun p => g.runtime_contains p st) ||
  optHit f.genre (fun p => g.genres_contains p st) ||
  optHit f.tag (fun p => g.tags_contains p st) ||
  optHit f.year (fun p => g.year_contains p st) ||
  optHit f.dev (fun p => g.devs_contains p st) ||
  optHit f.publi (fun p => g.publis_contains p st) ||
  optHit f.status (fun s => specStatusHit g.status s st)

/-! ### Helper lemmas -/

theorem head?_filter {α : Type} (p : α → Bool) :
    ∀ l : List α, (l.filter p).head? = l.find? p := by
  intro l
  induction l with
  | nil => rfl
  | cons a l ih =>
    by_cases h : p a
    · simp [List.filter_cons, h, List.find?_cons, ih]
    · simp only [Bool.not_eq_true] at h
      simp [List.filter_cons, h, List.find?_cons, ih]

theorem getLast?_filter {α : Type} (p : α → Bool) (l : List α) :
    (l.filter p).getLast? = l.reverse.find? p := by
  rw [← List.head?_reverse, ← List.filter_reverse, head?_filter]

theorem optHitTrue {α : Type} (o : Option α) (f : α → Bool) :
    optHit o f = true ↔ ∃ p, o = some p ∧ f p = true := by
  cases o <;> simp [optHit]

/-- get_ordering_name of the code agrees with the four-prefix key. -/
theorem get_ordering_name_eq_normKey (g : Game) :
    g.get_ordering_name = normKey g.name := by
  unfold Game.get_ordering_name normKey
  cases h1 : strStartsWith g.name "the " <;>
    cases h2 : strStartsWith g.name "The " <;>
      cases h3 : strStartsWith g.name "a " <;>
        cases h4 : strStartsWith g.name "A " <;>
          simp [h1, h2, h3, h4]

/-! ### Claim C9 -/

/-- Claim C9: equality of GameStatus values compares only the status
level and ignores the comment message, and consequently equality of Game
records and of Status fields ignores the status comment. -/
theorem c9_status_eq_ignores_message :
    ∀ (s : Status) (m1 m2 : Option String) (g : Game),
      GameStatus.eqv ⟨s, m1⟩ ⟨s, m2⟩ = true ∧
      Game.eqv { g with status := ⟨s, m1⟩ } { g with status := ⟨s, m2⟩ } = true ∧
      Field.eqv (Field.status ⟨s, m1⟩) (Field.status ⟨s, m2⟩) = true := by
  intro s m1 m2 g
  refine ⟨by simp [GameStatus.eqv], ?_, by simp [Field.eqv, GameStatus.eqv]⟩
  simp [Game.eqv, GameStatus.eqv]

/-! ### Claim C10 -/

/-- Claim C10: get_game_by_name returns the last element of the result
sequence whose name equals the argument exactly (and get_item_by_name
likewise the last exactly equal item), or none when no element matches. -/
theorem c10_get_by_name_returns_last :
    ∀ (q : QueryResult Game) (qi : QueryResult String) (n : String),
      q.get_game_by_name n = q.items.reverse.find? (fun a => a.name == n) ∧
      qi.get_item_by_name n = qi.items.reverse.find? (fun a => a == n) ∧
      ((∀ g ∈ q.items, g.name ≠ n) → q.get_game_by_name n = none) := by
  intro q qi n
  refine ⟨getLast?_filter _ _, getLast?_filter _ _, ?_⟩
  intro h
  rw [QueryResult.get_game_by_name, List.getLast?_eq_none_iff, List.filter_eq_nil_iff]
  intro g hg
  simpa using h g hg

/-- Witness for claim C10 at a concrete query result. -/
theorem c10_witness :
    (QueryResult.new ([] : List Game)).get_game_by_name "x" = none :=
  (c10_get_by_name_returns_last (QueryResult.new []) (QueryResult.new []) "x").2.2
    (by intro g hg; simp [QueryResult.new] at hg)

/-! ### Claim C5 -/

/-- Counterexample to claim C5: the claim says every set pattern
matches by substring containment, but the source compares the status
pattern to the status field by level equality, ignoring the comment.
A filter whose only set pattern is the status doesNotRun with comment
zzz accepts a game whose status is doesNotRun with comment abc (equal
levels), although no substring containment holds between the two
rendered statuses, so the claimed iff fails at this input. -/
theorem c5_counterexample :
    GameFilter.check_game
        ⟨none, none, none, none, none, none, none, none,
          some ⟨Status.doesNotRun, some "zzz"⟩⟩
        { Game.default with status := ⟨Status.doesNotRun, some "abc"⟩ }
        SearchType.caseSensitive = true ∧
      checkGameSpecC5
        ⟨none, none, none, none, none, none, none, none,
          some ⟨Status.doesNotRun, some "zzz"⟩⟩
        { Game.default with status := ⟨Status.doesNotRun, some "abc"⟩ }
        SearchType.caseSensitive = false := by
  constructor
  · decide
  · decide

/-- Claim C5 as amended: check_game is true iff at least one of the set
patterns matches its corresponding field (a logical OR across set
fields, with substring containment on the string fields and level
equality, ignoring the comment, on the status field); a filter with
nothing set matches no game, and filter_games with such a filter
returns the empty list. -/
theorem c5_filter_or_semantics :
    ∀ (f : GameFilter) (g : Game) (st : SearchType),
      (f.check_game g st = true ↔
        (∃ p, f.name = some p ∧ g.name_contains p st = true) ∨
        (∃ p, f.engine = some p ∧ g.engine_contains p st = true) ∨
        (∃ p, f.runtime = some p ∧ g.runtime_contains p st = true) ∨
        (∃ p, f.genre = some p ∧ g.genres_contains p st = true) ∨
        (∃ p, f.tag = some p ∧ g.tags_contains p st = true) ∨
        (∃ p, f.year = some p ∧ g.year_contains p st = true) ∨
        (∃ p, f.dev = some p ∧ g.devs_contains p st = true) ∨
        (∃ p, f.publi = some p ∧ g.publis_contains p st = true) ∨
        (∃ s, f.status = some s ∧ GameStatus.eqv g.status s = true)) ∧
      (f.is_empty = true → f.check_game g st = false) ∧
      (f.is_empty = true → ∀ gs, f.filter_games gs st = []) := by
  intro f g st
  obtain ⟨n, e, r, ge, t, y, d, pb, s⟩ := f
  refine ⟨?_, ?_, ?_⟩
  · simp only [GameFilter.check_game, Bool.or_eq_true, optHitTrue, or_assoc]
  · intro h
    simp only [GameFilter.is_empty, Bool.and_eq_true, Option.isNone_iff_eq_none] at h
    obtain ⟨⟨⟨⟨⟨⟨⟨⟨h1, h2⟩, h3⟩, h4⟩, h5⟩, h6⟩, h7⟩, h8⟩, h9⟩ := h
    subst h1 h2 h3 h4 h5 h6 h7 h8 h9
    rfl
  · intro h gs
    simp only [GameFilter.is_empty, Bool.and_eq_true, Option.isNone_iff_eq_none] at h
    obtain ⟨⟨⟨⟨⟨⟨⟨⟨h1, h2⟩, h3⟩, h4⟩, h5⟩, h6⟩, h7⟩, h8⟩, h9⟩ := h
    subst h1 h2 h3 h4 h5 h6 h7 h8 h9
    simp [GameFilter.filter_games, GameFilter.check_game, optHit]

/-- Witness for claim C5: the empty filter rejects a concrete game and
filters a concrete list to nothing. -/
theorem c5_witness :
    GameFilter.check_game GameFilter.default Game.default
        SearchType.caseSensitive = false ∧
      GameFilter.filter_games GameFilter.default [Game.default]
        SearchType.caseSensitive = [] :=
  ⟨(c5_filter_or_semantics GameFilter.default Game.default
      SearchType.caseSensitive).2.1 rfl,
   (c5_filter_or_semantics GameFilter.default Game.default
      SearchType.caseSensitive).2.2 rfl [Game.default]⟩

/-! ### Claim C6 -/

/-- Counterexample to claim C6: the claimed key normalization is
case-insensitive, which would make THE Champion and Champion compare
equal, but the code strips only the four literal prefixes and compares
them as strictly greater. -/
theorem c6_counterexample :
    specOrderKey "THE Champion" = specOrderKey "Champion" ∧
      Game.cmp { Game.default with name := "THE Champion" }
        { Game.default with name := "Champion" } = Ordering.gt := by
  constructor
  · decide
  · decide

/-- Claim C6 as amended: every comparison of two Games is decided by the
normalized ordering key of each name, where the key strips one literal
leading article among the exact strings the, The, a, A followed by a
space (not an arbitrary case mix), lowercases the remainder, and the
keys are compared lexicographically. -/
theorem c6_amended_ordering :
    ∀ g1 g2 : Game,
      Game.cmp g1 g2 = strCmp (normKey g1.name) (normKey g2.name) ∧
      (Game.ltB g1 g2 = true ↔ strLtB (normKey g1.name) (normKey g2.name) = true) ∧
      (Game.leB g1 g2 = true ↔
        strLtB (normKey g1.name) (normKey g2.name) = true ∨
          normKey g1.name = normKey g2.name) ∧
      (Game.gtB g1 g2 = true ↔
        strLtB (normKey g1.name) (normKey g2.name) = false ∧
          normKey g1.name ≠ normKey g2.name) ∧
      (Game.geB g1 g2 = true ↔
        strLtB (normKey g1.name) (normKey g2.name) = false) := by
  intro g1 g2
  have hc : Game.cmp g1 g2 = strCmp (normKey g1.name) (normKey g2.name) := by
    rw [Game.cmp, get_ordering_name_eq_normKey, get_ordering_name_eq_normKey]
  refine ⟨hc, ?_, ?_, ?_, ?_⟩ <;>
    simp only [Game.ltB, Game.leB, Game.gtB, Game.geB, hc] <;>
      unfold strCmp <;> split_ifs with h1 h2 <;> simp_all <;> decide

/-! ### Parser loop lemmas -/

/-- Games returned by loadFromLines are the loop games with uids
assigned. -/
theorem loadFromLines_games (mode : ParsingMode) (ls : List String) :
    (loadFromLines mode ls).games =
      (loadLoop mode PRun.init ls).games.map assignUid := by
  unfold loadFromLines
  cases h : (loadLoop mode PRun.init ls).errorLines.isEmpty <;>
    simp [h, ParserResult.games]

/-- Error lines returned by loadFromLines are the loop error lines. -/
theorem loadFromLines_errorLines (mode : ParsingMode) (ls : List String) :
    (loadFromLines mode ls).errorLines =
      (loadLoop mode PRun.init ls).errorLines := by
  unfold loadFromLines
  cases h : (loadLoop mode PRun.init ls).errorLines.isEmpty
  · simp [h, ParserResult.errorLines]
  · simp [ParserResult.errorLines, List.isEmpty_iff.mp h]

/-- Relaxed mode never breaks, so the loop splits over appends. -/
theorem loadLoop_relaxed_append (xs ys : List String) :
    ∀ r : PRun, loadLoop ParsingMode.relaxed r (xs ++ ys) =
      loadLoop ParsingMode.relaxed (loadLoop ParsingMode.relaxed r xs) ys := by
  induction xs with
  | nil => intro r; rfl
  | cons l rest ih =>
    intro r
    by_cases h : (parseStep r.state r.games (Field.fromLine l)).1 = ParserState.error
    · rw [List.cons_append, loadLoop, loadLoop, if_pos h, if_pos h]
      exact ih _
    · rw [List.cons_append, loadLoop, loadLoop, if_neg h, if_neg h]
      exact ih _

/-- Line counter of the relaxed loop. -/
theorem loadLoop_relaxed_currentLine (ls : List String) :
    ∀ r : PRun, (loadLoop ParsingMode.relaxed r ls).currentLine =
      r.currentLine + ls.length := by
  induction ls with
  | nil => intro r; simp [loadLoop]
  | cons l rest ih =>
    intro r
    by_cases h : (parseStep r.state r.games (Field.fromLine l)).1 = ParserState.error
    · rw [loadLoop]; rw [if_pos h]; rw [ih]; simp; omega
    · rw [loadLoop]; rw [if_neg h]; rw [ih]; simp; omega

/-- Error entries produced by the relaxed loop are old entries or exceed
the starting line counter. -/
theorem loadLoop_relaxed_err_mem (ls : List String) :
    ∀ (r : PRun) (e : Nat), e ∈ (loadLoop ParsingMode.relaxed r ls).errorLines →
      e ∈ r.errorLines ∨ r.currentLine < e := by
  induction ls with
  | nil => intro r e he; exact Or.inl he
  | cons l rest ih =>
    intro r e he
    by_cases h : (parseStep r.state r.games (Field.fromLine l)).1 = ParserState.error
    · rw [loadLoop, if_pos h] at he
      rcases ih _ e he with hm | hgt
      · simp at hm
        rcases hm with hm | hm
        · exact Or.inl hm
        · omega
      · simp at hgt; omega
    · rw [loadLoop, if_neg h] at he
      rcases ih _ e he with hm | hgt
      · exact Or.inl hm
      · simp at hgt; omega

/-- Error entries of the relaxed loop stay below the final line counter,
assuming the old entries do. -/
theorem loadLoop_relaxed_err_le (ls : List String) :
    ∀ (r : PRun), (∀ e ∈ r.errorLines, e ≤ r.currentLine) →
      ∀ e ∈ (loadLoop ParsingMode.relaxed r ls).errorLines,
        e ≤ (loadLoop ParsingMode.relaxed r ls).currentLine := by
  induction ls with
  | nil => intro r hr e he; exact hr e he
  | cons l rest ih =>
    intro r hr e he
    by_cases h : (parseStep r.state r.games (Field.fromLine l)).1 = ParserState.error
    · rw [loadLoop, if_pos h] at he ⊢
      refine ih _ ?_ e he
      intro e' he'
      simp at he'
      rcases he' with he' | he'
      · have := hr e' he'; simp; omega
      · simp; omega
    · rw [loadLoop, if_neg h] at he ⊢
      refine ih _ ?_ e he
      intro e' he'
      have := hr e' he'
      simp; omega

/-- From the Error or Recovering state one parse step never lands in the
Error state: a Game line starts a fresh record, anything else moves to
Recovering. -/
theorem parseStep_recovery_ne_error (st : ParserState) (games : List Game)
    (f : Field) (h : st = ParserState.error ∨ st = ParserState.recovering) :
    (parseStep st games f).1 ≠ ParserState.error := by
  rcases h with h | h <;> subst h <;> cases f <;> simp [parseStep]

/-- Parser value after consuming the first lines of the input in relaxed
mode (the state field is the state in which the next line is consumed). -/
def runPrefix (lines : List String) (i : Nat) : PRun :=
  loadLoop ParsingMode.relaxed PRun.init (lines.take i)

/-! ### Claim C2 -/

/-- Counterexample to claim C2: in the concrete relaxed run the third
line is consumed while the parser is in the Error state, yet its
position 3 is absent from the returned error-line list, which contains
only the position of the line that first entered the Error state. -/
theorem c2_counterexample :
    (runPrefix (rustLines "Game\tA\nXx\nYy") 2).state = ParserState.error ∧
    (load_from_string ParsingMode.relaxed "Game\tA\nXx\nYy").errorLines = [2] ∧
    3 ∉ (load_from_string ParsingMode.relaxed "Game\tA\nXx\nYy").errorLines := by
  refine ⟨by decide, by decide, by decide⟩

/-- Claim C2 as amended: in relaxed mode no line consumed while the
parser is already in the Error or Recovering state is ever recorded; the
error-line list receives only the position of a line whose processing
first moves the parser into the Error state. -/
theorem c2_amended_recovery_not_recorded :
    ∀ (lines : List String) (i : Nat),
      ((runPrefix lines i).state = ParserState.error ∨
        (runPrefix lines i).state = ParserState.recovering) →
      (i + 1) ∉ (loadFromLines ParsingMode.relaxed lines).errorLines := by
  intro lines i hst hmem
  simp only [runPrefix] at hst
  rw [loadFromLines_errorLines] at hmem
  rw [← List.take_append_drop i lines, loadLoop_relaxed_append] at hmem
  have hcl : (loadLoop ParsingMode.relaxed PRun.init (lines.take i)).currentLine =
      min i lines.length := by
    have := loadLoop_relaxed_currentLine (lines.take i) PRun.init
    simpa [PRun.init, List.length_take] using this
  have hbound : ∀ e ∈ (loadLoop ParsingMode.relaxed PRun.init (lines.take i)).errorLines,
      e ≤ min i lines.length := by
    intro e he
    have := loadLoop_relaxed_err_le (lines.take i) PRun.init
      (by intro e' he'; simp [PRun.init] at he') e he
    rw [← hcl]
    exact this
  by_cases hlen : lines.length ≤ i
  · have hdrop : lines.drop i = [] := List.drop_eq_nil_iff.mpr hlen
    rw [hdrop] at hmem
    have := hbound _ hmem
    omega
  · push_neg at hlen
    have hdropne : lines.drop i ≠ [] := by
      intro hc
      have := List.drop_eq_nil_iff.mp hc
      omega
    obtain ⟨x, xs, hdx⟩ := List.exists_cons_of_ne_nil hdropne
    rw [hdx] at hmem
    have hne : (parseStep
        (loadLoop ParsingMode.relaxed PRun.init (lines.take i)).state
        (loadLoop ParsingMode.relaxed PRun.init (lines.take i)).games
        (Field.fromLine x)).1 ≠ ParserState.error :=
      parseStep_recovery_ne_error _ _ _ hst
    rw [loadLoop, if_neg hne] at hmem
    rcases loadLoop_relaxed_err_mem xs _ _ hmem with hm | hgt
    · simp only at hm
      have := hbound _ hm
      omega
    · simp only at hgt
      rw [hcl] at hgt
      omega

/-- Witness for the amended claim C2 at the concrete run of the
counterexample input. -/
theorem c2_witness :
    3 ∉ (loadFromLines ParsingMode.relaxed (rustLines "Game\tA\nXx\nYy")).errorLines :=
  c2_amended_recovery_not_recorded (rustLines "Game\tA\nXx\nYy") 2
    (Or.inl (by decide))

/-! ### Claim C8 -/

/-- Every game returned by load_from_string carries the uid computed
from its name and added date. -/
theorem mem_games_uid (mode : ParsingMode) (data : String) (g : Game)
    (hg : g ∈ (load_from_string mode data).games) :
    g.uid = computeUid g.name g.added := by
  rw [load_from_string, loadFromLines_games] at hg
  obtain ⟨p, _, hp⟩ := List.mem_map.mp hg
  subst hp
  rfl

/-- Claim C8: the uid assigned by load_from_string is a deterministic
function of the name and the added date alone; two games from any runs
with equal name and equal added date receive the same 32-bit uid. -/
theorem c8_uid_deterministic :
    ∀ (m1 m2 : ParsingMode) (d1 d2 : String) (g1 g2 : Game),
      g1 ∈ (load_from_string m1 d1).games →
      g2 ∈ (load_from_string m2 d2).games →
      g1.name = g2.name → g1.added = g2.added → g1.uid = g2.uid := by
  intro m1 m2 d1 d2 g1 g2 h1 h2 hn ha
  rw [mem_games_uid m1 d1 g1 h1, mem_games_uid m2 d2 g2 h2, hn, ha]

/-- Witness for claim C8: two runs on different inputs produce games
with equal name and added date and hence equal uids. -/
theorem c8_witness :
    ((load_from_string ParsingMode.relaxed "Game\tFoo").games.headD
        Game.default).uid =
      ((load_from_string ParsingMode.relaxed "Game\tFoo\nCover\tx").games.headD
        Game.default).uid :=
  c8_uid_deterministic ParsingMode.relaxed ParsingMode.relaxed
    "Game\tFoo" "Game\tFoo\nCover\tx" _ _ (by decide) (by decide)
    (by decide) (by decide)

/-! ### Database lemmas -/

/-- Bucket content with the empty default. -/
def bucketD (b : Buckets) (v : String) : List Nat := (bucketGet b v).getD []

theorem lookup_insert_self (m : List (Nat × Game)) (uid : Nat) (g : Game) :
    lookupGame (insertGame m uid g) uid = some g := by
  induction m with
  | nil => simp [insertGame, lookupGame]
  | cons kv rest ih =>
    obtain ⟨k, v⟩ := kv
    by_cases h : k = uid
    · simp [insertGame, h, lookupGame]
    · simp [insertGame, h, lookupGame, ih]

theorem lookup_insert_ne (m : List (Nat × Game)) (uid u : Nat) (g : Game)
    (h : u ≠ uid) : lookupGame (insertGame m uid g) u = lookupGame m u := by
  have h2 : uid ≠ u := Ne.symm h
  induction m with
  | nil => simp [insertGame, lookupGame, h2]
  | cons kv rest ih =>
    obtain ⟨k, v⟩ := kv
    by_cases hk : k = uid
    · subst hk
      simp [insertGame, lookupGame, h2]
    · by_cases hu : k = u
      · subst hu
        simp [insertGame, hk, lookupGame]
      · simp [insertGame, hk, lookupGame, hu, ih]

/-- load_game in solved form: the refetched game is the inserted one. -/
theorem load_game_eq (db : GameDataBase) (g : Game) :
    db.load_game g =
      { games := insertGame db.games g.uid g
        engines := indexSingle db.engines g.engine g.uid
        runtimes := indexSingle db.runtimes g.runtime g.uid
        genres := indexMany db.genres g.genres g.uid
        tags := indexMany db.tags g.tags g.uid
        years := indexSingle db.years g.year g.uid
        devs := indexMany db.devs g.devs g.uid
        publis := indexMany db.publis g.publis g.uid } := by
  unfold GameDataBase.load_game
  dsimp only
  rw [lookup_insert_self]

theorem bucketGet_add_self (b : Buckets) (item : String) (id : Nat) :
    bucketGet (add_game_to b item id) item = some (bucketD b item ++ [id]) := by
  induction b with
  | nil => simp [add_game_to, bucketGet, bucketD]
  | cons kv rest ih =>
    obtain ⟨k, v⟩ := kv
    by_cases h : k = item
    · simp [add_game_to, h, bucketGet, bucketD]
    · simp [add_game_to, h, bucketGet, bucketD, ih]

theorem bucketGet_add_ne (b : Buckets) (item v : String) (id : Nat)
    (h : v ≠ item) : bucketGet (add_game_to b item id) v = bucketGet b v := by
  have h2 : item ≠ v := Ne.symm h
  induction b with
  | nil => simp [add_game_to, bucketGet, h2]
  | cons kv rest ih =>
    obtain ⟨k, w⟩ := kv
    by_cases hk : k = item
    · subst hk
      simp [add_game_to, bucketGet, h2]
    · by_cases hv : k = v
      · subst hv
        simp [add_game_to, hk, bucketGet]
      · simp [add_game_to, hk, bucketGet, hv, ih]

theorem bucketD_add (b : Buckets) (item v : String) (id : Nat) :
    bucketD (add_game_to b item id) v =
      bucketD b v ++ (if v = item then [id] else []) := by
  by_cases h : v = item
  · subst h
    simp [bucketD, bucketGet_add_self]
  · simp [bucketD, bucketGet_add_ne b item v id h, h]

theorem bucketD_addAll (items : List String) :
    ∀ (b : Buckets) (id : Nat) (v : String),
      bucketD (addAll b items id) v =
        bucketD b v ++ (items.filter (fun t => t = v)).map (fun _ => id) := by
  induction items with
  | nil => intro b id v; simp [addAll]
  | cons i rest ih =>
    intro b id v
    rw [addAll, ih, bucketD_add]
    by_cases h : v = i
    · subst h
      simp [List.filter_cons]
    · have h2 : i ≠ v := Ne.symm h
      simp [List.filter_cons, h, h2]

theorem bucketD_indexSingle (b : Buckets) (o : Option String) (id : Nat)
    (v : String) :
    bucketD (indexSingle b o id) v =
      bucketD b v ++
        (match o with
          | some item => if v = item then [id] else []
          | none => []) := by
  cases o with
  | none => simp [indexSingle]
  | some item => simp [indexSingle, bucketD_add]

theorem bucketD_indexMany (b : Buckets) (o : Option (List String)) (id : Nat)
    (v : String) :
    bucketD (indexMany b o id) v =
      bucketD b v ++
        (match o with
          | some items => (items.filter (fun t => t = v)).map (fun _ => id)
          | none => []) := by
  cases o with
  | none => simp [indexMany]
  | some items => simp [indexMany, bucketD_addAll]

theorem mem_bucketD_indexSingle {b : Buckets} {o : Option String} {id u : Nat}
    {v : String} (h : u ∈ bucketD (indexSingle b o id) v) :
    u ∈ bucketD b v ∨ u = id := by
  rw [bucketD_indexSingle] at h
  rcases List.mem_append.mp h with h | h
  · exact Or.inl h
  · cases o with
    | none => simp at h
    | some item =>
      by_cases hv : v = item
      · simp [hv] at h; exact Or.inr h
      · simp [hv] at h

theorem mem_bucketD_indexMany {b : Buckets} {o : Option (List String)}
    {id u : Nat} {v : String} (h : u ∈ bucketD (indexMany b o id) v) :
    u ∈ bucketD b v ∨ u = id := by
  rw [bucketD_indexMany] at h
  rcases List.mem_append.mp h with h | h
  · exact Or.inl h
  · cases o with
    | none => simp at h
    | some items =>
      rcases List.mem_map.mp h with ⟨t, _, ht⟩
      exact Or.inr ht.symm

theorem matchGamesBy_items (b : Buckets) (m : List (Nat × Game)) (v : String) :
    (matchGamesBy b m v).items = collectGames m (bucketD b v) := by
  unfold matchGamesBy bucketD
  cases h : bucketGet b v <;> simp [QueryResult.new, collectGames]

theorem mem_collectGames {m : List (Nat × Game)} {ids : List Nat} {u : Nat}
    {g : Game} (hu : u ∈ ids) (hl : lookupGame m u = some g) :
    g ∈ collectGames m ids :=
  List.mem_filterMap.mpr ⟨u, hu, hl⟩

/-! ### Store invariants for claim C7 -/

/-- Invariant A: every uid found in any secondary index is a key of the
canonical games map. -/
def dbInvA (db : GameDataBase) : Prop :=
  ∀ u v,
    (u ∈ bucketD db.engines v ∨ u ∈ bucketD db.runtimes v ∨
      u ∈ bucketD db.years v ∨ u ∈ bucketD db.genres v ∨
      u ∈ bucketD db.tags v ∨ u ∈ bucketD db.devs v ∨
      u ∈ bucketD db.publis v) →
    ∃ g, lookupGame db.games u = some g

/-- Invariant B: the game stored under a uid is indexed under every value
of each of its non-empty indexed fields. -/
def dbInvB (db : GameDataBase) : Prop :=
  ∀ u g, lookupGame db.games u = some g →
    (∀ v, g.engine = some v → u ∈ bucketD db.engines v) ∧
    (∀ v, g.runtime = some v → u ∈ bucketD db.runtimes v) ∧
    (∀ v, g.year = some v → u ∈ bucketD db.years v) ∧
    (∀ v, v ∈ g.genres.getD [] → u ∈ bucketD db.genres v) ∧
    (∀ v, v ∈ g.tags.getD [] → u ∈ bucketD db.tags v) ∧
    (∀ v, v ∈ g.devs.getD [] → u ∈ bucketD db.devs v) ∧
    (∀ v, v ∈ g.publis.getD [] → u ∈ bucketD db.publis v)

theorem singleContrib_mem {o : Option String} {v : String} {id : Nat}
    (h : o = some v) :
    id ∈ (match o with
      | some item => if v = item then [id] else []
      | none => ([] : List Nat)) := by
  subst h; simp

theorem manyContrib_mem {o : Option (List String)} {v : String} {id : Nat}
    (h : v ∈ o.getD []) :
    id ∈ (match o with
      | some items => (items.filter (fun t => t = v)).map (fun _ => id)
      | none => ([] : List Nat)) := by
  cases o with
  | none => simp at h
  | some items =>
    simp only [Option.getD_some] at h
    exact List.mem_map.mpr ⟨v, List.mem_filter.mpr ⟨h, by simp⟩, rfl⟩

theorem dbInv_step (db : GameDataBase) (hA : dbInvA db) (hB : dbInvB db)
    (game : Game) :
    dbInvA (db.load_game game) ∧ dbInvB (db.load_game game) := by
  rw [load_game_eq]
  constructor
  · intro u v hmem
    have hold : (u ∈ bucketD db.engines v ∨ u ∈ bucketD db.runtimes v ∨
        u ∈ bucketD db.years v ∨ u ∈ bucketD db.genres v ∨
        u ∈ bucketD db.tags v ∨ u ∈ bucketD db.devs v ∨
        u ∈ bucketD db.publis v) ∨ u = game.uid := by
      rcases hmem with h | h | h | h | h | h | h
      · rcases mem_bucketD_indexSingle h with h | h
        · exact Or.inl (Or.inl h)
        · exact Or.inr h
      · rcases mem_bucketD_indexSingle h with h | h
        · exact Or.inl (Or.inr (Or.inl h))
        · exact Or.inr h
      · rcases mem_bucketD_indexSingle h with h | h
        · exact Or.inl (Or.inr (Or.inr (Or.inl h)))
        · exact Or.inr h
      · rcases mem_bucketD_indexMany h with h | h
        · exact Or.inl (Or.inr (Or.inr (Or.inr (Or.inl h))))
        · exact Or.inr h
      · rcases mem_bucketD_indexMany h with h | h
        · exact Or.inl (Or.inr (Or.inr (Or.inr (Or.inr (Or.inl h)))))
        · exact Or.inr h
      · rcases mem_bucketD_indexMany h with h | h
        · exact Or.inl (Or.inr (Or.inr (Or.inr (Or.inr (Or.inr (Or.inl h))))))
        · exact Or.inr h
      · rcases mem_bucketD_indexMany h with h | h
        · exact Or.inl (Or.inr (Or.inr (Or.inr (Or.inr (Or.inr (Or.inr h))))))
        · exact Or.inr h
    rcases hold with hold | hnew
    · by_cases hu : u = game.uid
      · exact ⟨game, by simp [hu, lookup_insert_self]⟩
      · obtain ⟨g, hg⟩ := hA u v hold
        exact ⟨g, by rw [lookup_insert_ne _ _ _ _ hu]; exact hg⟩
    · exact ⟨game, by simp [hnew, lookup_insert_self]⟩
  · intro u g hlook
    by_cases hu : u = game.uid
    · subst hu
      rw [lookup_insert_self] at hlook
      cases hlook
      refine ⟨?_, ?_, ?_, ?_, ?_, ?_, ?_⟩ <;> intro v hv <;>
        simp only [bucketD_indexSingle, bucketD_indexMany, List.mem_append]
      · exact Or.inr (singleContrib_mem hv)
      · exact Or.inr (singleContrib_mem hv)
      · exact Or.inr (singleContrib_mem hv)
      · exact Or.inr (manyContrib_mem hv)
      · exact Or.inr (manyContrib_mem hv)
      · exact Or.inr (manyContrib_mem hv)
      · exact Or.inr (manyContrib_mem hv)
    · rw [lookup_insert_ne _ _ _ _ hu] at hlook
      obtain ⟨h1, h2, h3, h4, h5, h6, h7⟩ := hB u g hlook
      refine ⟨?_, ?_, ?_, ?_, ?_, ?_, ?_⟩ <;> intro v hv <;>
        simp only [bucketD_indexSingle, bucketD_indexMany, List.mem_append]
      · exact Or.inl (h1 v hv)
      · exact Or.inl (h2 v hv)
      · exact Or.inl (h3 v hv)
      · exact Or.inl (h4 v hv)
      · exact Or.inl (h5 v hv)
      · exact Or.inl (h6 v hv)
      · exact Or.inl (h7 v hv)

theorem dbInv_foldl (gs : List Game) :
    ∀ db : GameDataBase, dbInvA db → dbInvB db →
      dbInvA (gs.foldl GameDataBase.load_game db) ∧
        dbInvB (gs.foldl GameDataBase.load_game db) := by
  induction gs with
  | nil => intro db hA hB; exact ⟨hA, hB⟩
  | cons g rest ih =>
    intro db hA hB
    obtain ⟨hA2, hB2⟩ := dbInv_step db hA hB g
    exact ih _ hA2 hB2

theorem dbInvA_default : dbInvA GameDataBase.default := by
  intro u v h
  simp [GameDataBase.default, bucketD, bucketGet] at h

theorem dbInvB_default : dbInvB GameDataBase.default := by
  intro u g h
  simp [GameDataBase.default, lookupGame] at h

/-! ### Claim C7 -/

/-- Claim C7: in every built GameDataBase, every uid appearing in any of
the seven secondary indexes is a key of the canonical games map, and the
game stored under a uid is returned by match_games_by of each field for
every value of its non-empty indexed fields. -/
theorem c7_index_consistency :
    ∀ gs : List Game,
      (∀ u v,
        (u ∈ bucketD (GameDataBase.new gs).engines v ∨
          u ∈ bucketD (GameDataBase.new gs).runtimes v ∨
          u ∈ bucketD (GameDataBase.new gs).years v ∨
          u ∈ bucketD (GameDataBase.new gs).genres v ∨
          u ∈ bucketD (GameDataBase.new gs).tags v ∨
          u ∈ bucketD (GameDataBase.new gs).devs v ∨
          u ∈ bucketD (GameDataBase.new gs).publis v) →
        ∃ g, lookupGame (GameDataBase.new gs).games u = some g) ∧
      (∀ u g, lookupGame (GameDataBase.new gs).games u = some g →
        (∀ v, g.engine = some v →
          g ∈ ((GameDataBase.new gs).match_games_by_engine v).items) ∧
        (∀ v, g.runtime = some v →
          g ∈ ((GameDataBase.new gs).match_games_by_runtime v).items) ∧
        (∀ v, g.year = some v →
          g ∈ ((GameDataBase.new gs).match_games_by_year v).items) ∧
        (∀ v, v ∈ g.genres.getD [] →
          g ∈ ((GameDataBase.new gs).match_games_by_genre v).items) ∧
        (∀ v, v ∈ g.tags.getD [] →
          g ∈ ((GameDataBase.new gs).match_games_by_tag v).items) ∧
        (∀ v, v ∈ g.devs.getD [] →
          g ∈ ((GameDataBase.new gs).match_games_by_dev v).items) ∧
        (∀ v, v ∈ g.publis.getD [] →
          g ∈ ((GameDataBase.new gs).match_games_by_publi v).items)) := by
  intro gs
  obtain ⟨hA, hB⟩ := dbInv_foldl gs GameDataBase.default dbInvA_default dbInvB_default
  constructor
  · exact fun u v h => hA u v h
  · intro u g hlook
    obtain ⟨h1, h2, h3, h4, h5, h6, h7⟩ := hB u g hlook
    refine ⟨?_, ?_, ?_, ?_, ?_, ?_, ?_⟩ <;> intro v hv
    · rw [GameDataBase.match_games_by_engine, matchGamesBy_items]
      exact mem_collectGames (h1 v hv) hlook
    · rw [GameDataBase.match_games_by_runtime, matchGamesBy_items]
      exact mem_collectGames (h2 v hv) hlook
    · rw [GameDataBase.match_games_by_year, matchGamesBy_items]
      exact mem_collectGames (h3 v hv) hlook
    · rw [GameDataBase.match_games_by_genre, matchGamesBy_items]
      exact mem_collectGames (h4 v hv) hlook
    · rw [GameDataBase.match_games_by_tag, matchGamesBy_items]
      exact mem_collectGames (h5 v hv) hlook
    · rw [GameDataBase.match_games_by_dev, matchGamesBy_items]
      exact mem_collectGames (h6 v hv) hlook
    · rw [GameDataBase.match_games_by_publi, matchGamesBy_items]
      exact mem_collectGames (h7 v hv) hlook

/-- Witness for claim C7 on a concrete one-game store. -/
theorem c7_witness :
    { Game.default with uid := 7, engine := some "e", tags := some ["t"] } ∈
      ((GameDataBase.new
        [{ Game.default with uid := 7, engine := some "e", tags := some ["t"] }]).match_games_by_engine
          "e").items :=
  (((c7_index_consistency
      [{ Game.default with uid := 7, engine := some "e", tags := some ["t"] }]).2
    7 { Game.default with uid := 7, engine := some "e", tags := some ["t"] }
    (by decide)).1) "e" (by decide)

/-! ### Load-order lemmas for claim C3 -/

theorem lookup_foldl_keep (gs : List Game) :
    ∀ (db : GameDataBase) (u : Nat), (∀ g ∈ gs, g.uid ≠ u) →
      lookupGame ((gs.foldl GameDataBase.load_game db).games) u =
        lookupGame db.games u := by
  induction gs with
  | nil => intro db u _; rfl
  | cons g rest ih =>
    intro db u h
    rw [List.foldl_cons, ih _ u (fun g' hg' => h g' (List.mem_cons_of_mem _ hg'))]
    rw [load_game_eq]
    exact lookup_insert_ne _ _ _ _
      (fun hc => h g (List.mem_cons_self _ _) hc.symm)

theorem lookup_foldl_of_nodup :
    ∀ gs : List Game, (gs.map Game.uid).Nodup →
      ∀ g ∈ gs, ∀ db : GameDataBase,
        lookupGame ((gs.foldl GameDataBase.load_game db).games) g.uid = some g := by
  intro gs
  induction gs with
  | nil => intro _ g hg; simp at hg
  | cons a rest ih =>
    intro hnd g hg db
    rw [List.map_cons, List.nodup_cons] at hnd
    obtain ⟨hau, hndr⟩ := hnd
    rw [List.foldl_cons]
    rcases List.mem_cons.mp hg with rfl | hgr
    · have hne : ∀ g' ∈ rest, g'.uid ≠ g.uid := by
        intro g' hg' hc
        exact hau (List.mem_map.mpr ⟨g', hg', hc⟩)
      rw [lookup_foldl_keep rest _ g.uid hne, load_game_eq]
      exact lookup_insert_self _ _ _
    · exact ih hndr g hgr _

theorem tags_bucket_foldl (gs : List Game) :
    ∀ (db : GameDataBase) (v : String),
      bucketD ((gs.foldl GameDataBase.load_game db).tags) v =
        bucketD db.tags v ++
          (gs.map (fun g =>
            ((g.tags.getD []).filter (fun t => t = v)).map
              (fun _ => g.uid))).flatten := by
  induction gs with
  | nil => intro db v; simp
  | cons g rest ih =>
    intro db v
    rw [List.foldl_cons, ih, load_game_eq]
    dsimp only
    rw [bucketD_indexMany]
    cases hgt : g.tags <;>
      simp [hgt, List.flatten_cons, List.append_assoc]

theorem filter_eq_of_nodup {v : String} :
    ∀ {l : List String}, l.Nodup →
      l.filter (fun t => t = v) = if v ∈ l then [v] else [] := by
  intro l
  induction l with
  | nil => intro _; simp
  | cons a l ih =>
    intro hnd
    obtain ⟨ha, hl⟩ := List.nodup_cons.mp hnd
    by_cases hav : a = v
    · subst hav
      simp [List.filter_cons, ih hl, ha]
    · have h2 : ¬v = a := fun hc => hav hc.symm
      simp [List.filter_cons, hav, ih hl, List.mem_cons, h2]

theorem contrib_join_eq (v : String) :
    ∀ gs : List Game, (∀ g ∈ gs, (g.tags.getD []).Nodup) →
      (gs.map (fun g =>
        ((g.tags.getD []).filter (fun t => t = v)).map (fun _ => g.uid))).flatten =
        (gs.filter (fun g => decide (v ∈ g.tags.getD []))).map Game.uid := by
  intro gs
  induction gs with
  | nil => intro _; simp
  | cons g rest ih =>
    intro h
    have hg := h g (List.mem_cons_self _ _)
    have hrest := fun g' hg' => h g' (List.mem_cons_of_mem _ hg')
    rw [List.map_cons, List.flatten_cons, ih hrest, filter_eq_of_nodup hg]
    by_cases hv : v ∈ g.tags.getD []
    · simp [List.filter_cons, hv]
    · simp [List.filter_cons, hv]

theorem collect_map_uid :
    ∀ (l : List Game) (m : List (Nat × Game)),
      (∀ g ∈ l, lookupGame m g.uid = some g) →
      collectGames m (l.map Game.uid) = l := by
  intro l
  induction l with
  | nil => intro m _; rfl
  | cons g rest ih =>
    intro m h
    rw [List.map_cons]
    unfold collectGames
    rw [List.filterMap_cons, h g (List.mem_cons_self _ _)]
    have := ih m (fun g' hg' => h g' (List.mem_cons_of_mem _ hg'))
    unfold collectGames at this
    rw [this]

/-! ### Claim C3 -/

/-- Counterexample to claim C3: the bucket returned by match_games_by_tag
keeps insertion order; with Zebra loaded before Apple the result lists
Zebra first although the ordering key of Apple is strictly smaller, so
the result is not sorted by the ordering key and QueryResult construction
does not sort. -/
theorem c3_counterexample :
    (((GameDataBase.new
        [{ Game.default with uid := 1, name := "Zebra", tags := some ["t"] },
         { Game.default with uid := 2, name := "Apple", tags := some ["t"] }]).match_games_by_tag
        "t").items.map Game.name = ["Zebra", "Apple"]) ∧
      strLtB
        (Game.get_ordering_name
          { Game.default with uid := 2, name := "Apple", tags := some ["t"] })
        (Game.get_ordering_name
          { Game.default with uid := 1, name := "Zebra", tags := some ["t"] }) =
        true := by
  exact ⟨by decide, by decide⟩

/-- Claim C3 as amended: QueryResult construction wraps the given
sequence unchanged with count equal to its length (no sort), and
match_games_by_tag returns the matching games in index-bucket insertion
order, which is the load order of the games. -/
theorem c3_amended_no_sort :
    (∀ (T : Type) (items : List T),
      QueryResult.new items = ⟨items.length, items⟩) ∧
    (∀ (gs : List Game) (v : String),
      (gs.map Game.uid).Nodup →
      (∀ g ∈ gs, (g.tags.getD []).Nodup) →
      ((GameDataBase.new gs).match_games_by_tag v).items =
        gs.filter (fun g => decide (v ∈ g.tags.getD []))) := by
  constructor
  · intro T items; rfl
  · intro gs v hnd htags
    simp only [GameDataBase.new, GameDataBase.match_games_by_tag]
    rw [matchGamesBy_items]
    have hbase : bucketD GameDataBase.default.tags v = [] := by
      simp [GameDataBase.default, bucketD, bucketGet]
    rw [tags_bucket_foldl, hbase, contrib_join_eq v gs htags, List.nil_append]
    apply collect_map_uid
    intro g hg
    exact lookup_foldl_of_nodup gs hnd g (List.mem_of_mem_filter hg)
      GameDataBase.default

/-- Witness for the amended claim C3 at the concrete two-game store. -/
theorem c3_witness :
    ((GameDataBase.new
        [{ Game.default with uid := 1, name := "Zebra", tags := some ["t"] },
         { Game.default with uid := 2, name := "Apple", tags := some ["t"] }]).match_games_by_tag
        "t").items =
      [{ Game.default with uid := 1, name := "Zebra", tags := some ["t"] },
       { Game.default with uid := 2, name := "Apple", tags := some ["t"] }].filter
        (fun g => decide ("t" ∈ g.tags.getD [])) :=
  c3_amended_no_sort.2 _ "t" (by decide) (by decide)

/-! ### Well-formed record blocks for claim C1 -/

/-- Expected field states in the fixed record order. -/
def stateList : List ParserState :=
  [ParserState.game, ParserState.cover, ParserState.engine, ParserState.setup,
   ParserState.runtime, ParserState.store, ParserState.hints, ParserState.genre,
   ParserState.tags, ParserState.year, ParserState.dev, ParserState.publi,
   ParserState.version, ParserState.status, ParserState.added,
   ParserState.updated, ParserState.igdbId]

/-- Expected state at a 0-based position of a record (past the end, the
parser is back at the Game state). -/
def stateAt (i : Nat) : ParserState := stateList.getD i ParserState.game

/-- Whether a classified field advances the parser from the given state. -/
def matchesState (st : ParserState) (f : Field) : Bool :=
  match st, f with
  | .game, .game _ => true
  | .cover, .cover _ => true
  | .engine, .engine _ => true
  | .setup, .setup _ => true
  | .runtime, .runtime _ => true
  | .store, .store _ => true
  | .hints, .hints _ => true
  | .genre, .genres _ => true
  | .tags, .tags _ => true
  | .year, .year _ => true
  | .dev, .dev _ => true
  | .publi, .publi _ => true
  | .version, .version _ => true
  | .status, .status _ => true
  | .added, .added _ => true
  | .updated, .updated _ => true
  | .igdbId, .igdbId _ => true
  | _, _ => false

/-- Lines classifying to the expected fields from a given position on. -/
def segMatches : Nat → List String → Bool
  | _, [] => true
  | i, l :: rest => matchesState (stateAt i) (Field.fromLine l) && segMatches (i + 1) rest

/-- Well-formed 17-line record block. -/
def wfBlock (ls : List String) : Bool := ls.length == 17 && segMatches 0 ls

/-- Whether a field is the Game variant. -/
def isGameField : Field → Bool
  | .game _ => true
  | _ => false

theorem stateAt_17 : stateAt 17 = ParserState.game := by decide

theorem stateAt_ne_error : ∀ j, stateAt j ≠ ParserState.error := by
  intro j
  by_cases h : j < 17
  · interval_cases j <;> decide
  · have hd : stateAt j = ParserState.game := by
      unfold stateAt
      apply List.getD_eq_default
      simp only [stateList, List.length_cons, List.length_nil]
      omega
    rw [hd]
    decide

theorem setLast_some (f : Game → Game) :
    ∀ games : List Game, games ≠ [] →
      ∃ gs, setLast f games = some gs ∧ gs.length = games.length ∧ gs ≠ [] := by
  intro games
  induction games with
  | nil => intro h; exact absurd rfl h
  | cons g rest ih =>
    intro _
    cases rest with
    | nil => exact ⟨[f g], rfl, rfl, by simp⟩
    | cons g2 r2 =>
      obtain ⟨gs, hgs, hlen, hne⟩ := ih (by simp)
      refine ⟨g :: gs, ?_, by simp [hlen], by simp⟩
      rw [setLast, hgs]
      rfl

theorem matchSetLast (st2 : ParserState) (f : Game → Game)
    (games : List Game) (hne : games ≠ []) :
    ∃ gs, (match setLast f games with
            | some gs => (st2, gs)
            | none => (ParserState.error, games)) = (st2, gs) ∧
      gs.length = games.length ∧ gs ≠ [] := by
  obtain ⟨gs, hgs, hlen, hne2⟩ := setLast_some f games hne
  exact ⟨gs, by rw [hgs], hlen, hne2⟩

theorem advanceOne (i : Nat) (h1 : 1 ≤ i) (h2 : i ≤ 16) (f : Field)
    (games : List Game) (hm : matchesState (stateAt i) f = true)
    (hne : games ≠ []) :
    ∃ games2, parseStep (stateAt i) games f = (stateAt (i + 1), games2) ∧
      games2.length = games.length ∧ games2 ≠ [] := by
  interval_cases i <;> cases f <;>
    simp only [stateAt, stateList, List.getD_cons_zero, List.getD_cons_succ,
      matchesState, Bool.false_eq_true] at hm <;>
    (simp only [parseStep, stateAt, stateList, List.getD_cons_zero,
       List.getD_cons_succ]
     exact matchSetLast _ _ games hne)

theorem errStep (k : Nat) (h1 : 1 ≤ k) (h2 : k ≤ 16) (f : Field)
    (games : List Game) (hm : matchesState (stateAt k) f = false) :
    parseStep (stateAt k) games f = (ParserState.error, games) := by
  interval_cases k <;> cases f <;>
    simp only [stateAt, stateList, List.getD_cons_zero, List.getD_cons_succ,
      matchesState, Bool.true_eq_false] at hm <;>
    simp [parseStep, stateAt, stateList]

theorem matchesState_not_game (j : Nat) (h1 : 1 ≤ j) (h2 : j ≤ 16) (f : Field)
    (hm : matchesState (stateAt j) f = true) : isGameField f = false := by
  interval_cases j <;> cases f <;>
    simp only [stateAt, stateList, List.getD_cons_zero, List.getD_cons_succ,
      matchesState, Bool.false_eq_true] at hm <;>
    simp [isGameField]

theorem segMatches_not_game :
    ∀ (ls : List String) (j : Nat), 1 ≤ j → j + ls.length ≤ 17 →
      segMatches j ls = true →
      ∀ l ∈ ls, isGameField (Field.fromLine l) = false := by
  intro ls
  induction ls with
  | nil => intro j _ _ _ l hl; simp at hl
  | cons x xs ih =>
    intro j hj1 hj2 hseg l hl
    rw [segMatches, Bool.and_eq_true] at hseg
    obtain ⟨hx, hxs⟩ := hseg
    rcases List.mem_cons.mp hl with rfl | hl2
    · refine matchesState_not_game j hj1 ?_ _ hx
      simp at hj2
      omega
    · refine ih (j + 1) (by omega) (by simp at hj2 ⊢; omega) hxs l hl2

theorem recStep (st : ParserState) (games : List Game) (f : Field)
    (hst : st = ParserState.error ∨ st = ParserState.recovering)
    (hf : isGameField f = false) :
    parseStep st games f = (ParserState.recovering, games) := by
  rcases hst with rfl | rfl <;> cases f <;>
    simp [parseStep, isGameField] at hf ⊢

/-- Running a run of expected field lines from a field state: the state
advances position by position, the game list keeps its length, no error
line is recorded. -/
theorem fieldRun :
    ∀ (ls : List String) (i : Nat) (games : List Game), 1 ≤ i →
      i + ls.length ≤ 17 → segMatches i ls = true → games ≠ [] →
      ∃ games2, games2.length = games.length ∧ games2 ≠ [] ∧
        ∀ (mode : ParsingMode) (errs : List Nat) (ln : Nat) (rest : List String),
          loadLoop mode ⟨stateAt i, games, errs, ln⟩ (ls ++ rest) =
            loadLoop mode ⟨stateAt (i + ls.length), games2, errs, ln + ls.length⟩ rest := by
  intro ls
  induction ls with
  | nil =>
    intro i games _ _ _ _
    exact ⟨games, rfl, by assumption, fun mode errs ln rest => by simp⟩
  | cons l xs ih =>
    intro i games hi1 hi2 hseg hne
    rw [segMatches, Bool.and_eq_true] at hseg
    obtain ⟨hl, hxs⟩ := hseg
    have hi16 : i ≤ 16 := by simp at hi2; omega
    obtain ⟨gs1, hstep, hlen1, hne1⟩ :=
      advanceOne i hi1 hi16 (Field.fromLine l) games hl hne
    obtain ⟨games2, hlen2, hne2, hrun⟩ :=
      ih (i + 1) gs1 (by omega) (by simp at hi2 ⊢; omega) hxs hne1
    refine ⟨games2, by omega, hne2, ?_⟩
    intro mode errs ln rest
    rw [List.cons_append, loadLoop]
    dsimp only
    rw [hstep]
    rw [if_neg (by exact stateAt_ne_error (i + 1))]
    rw [hrun mode errs (ln + 1) rest]
    have e1 : i + 1 + xs.length = i + (xs.length + 1) := by omega
    have e2 : ln + 1 + xs.length = ln + (xs.length + 1) := by omega
    rw [e1, e2]
    simp [List.length_cons]

/-- Fresh record pushed by a Game line. -/
def mkGame (n : Option String) : Game :=
  match n with
  | some s => { Game.default with name := s }
  | none => Game.default

theorem matchesGame {f : Field}
    (h : matchesState ParserState.game f = true) : ∃ n, f = Field.game n := by
  cases f <;> simp [matchesState] at h <;> exact ⟨_, rfl⟩

/-- Running a well-formed prefix of a record block (the Game line plus
the next expected fields) from the Game, Error or Recovering state:
exactly one game is appended, the state lands at the next expected
position, no error line is recorded. -/
theorem prefixRun (ls : List String) (k : Nat) (st : ParserState)
    (games : List Game) (hk1 : 1 ≤ k) (hk2 : k ≤ 17) (hlen : ls.length = k)
    (hseg : segMatches 0 ls = true)
    (hst : st = ParserState.game ∨ st = ParserState.error ∨
      st = ParserState.recovering) :
    ∃ games2, games2.length = games.length + 1 ∧ games2 ≠ [] ∧
      ∀ (mode : ParsingMode) (errs : List Nat) (ln : Nat) (rest : List String),
        loadLoop mode ⟨st, games, errs, ln⟩ (ls ++ rest) =
          loadLoop mode ⟨stateAt k, games2, errs, ln + k⟩ rest := by
  cases ls with
  | nil => simp at hlen; omega
  | cons l xs =>
    rw [segMatches, Bool.and_eq_true] at hseg
    obtain ⟨hl, hxs⟩ := hseg
    have hst0 : stateAt 0 = ParserState.game := by decide
    rw [hst0] at hl
    obtain ⟨n, hf⟩ := matchesGame hl
    have hpush : ∃ g0, parseStep st games (Field.fromLine l) =
        (ParserState.cover, games ++ [g0]) := by
      refine ⟨mkGame n, ?_⟩
      rcases hst with rfl | rfl | rfl <;> rw [hf] <;> cases n <;> rfl
    obtain ⟨g0, hstep⟩ := hpush
    have hxslen : xs.length = k - 1 := by simp at hlen; omega
    obtain ⟨games2, hlen2, hne2, hrun⟩ :=
      fieldRun xs 1 (games ++ [g0]) (by omega) (by omega)
        (by simpa using hxs) (by simp)
    refine ⟨games2, by simp at hlen2; omega, hne2, ?_⟩
    intro mode errs ln rest
    rw [List.cons_append, loadLoop]
    dsimp only
    rw [hstep]
    have hcov : ((ParserState.cover, games ++ [g0]) :
        ParserState × List Game).1 ≠ ParserState.error := by simp
    rw [if_neg hcov]
    have hst1 : stateAt 1 = ParserState.cover := by decide
    rw [hst1] at hrun
    rw [hrun mode errs (ln + 1) rest]
    have e1 : 1 + xs.length = k := by omega
    have e2 : ln + 1 + xs.length = ln + k := by omega
    rw [e1, e2]

/-- Skipping a run of non-Game lines in relaxed mode while in Error or
Recovering state: nothing is recorded, the game list is unchanged. -/
theorem recoverRun :
    ∀ (ls : List String) (st : ParserState) (games : List Game),
      (∀ l ∈ ls, isGameField (Field.fromLine l) = false) →
      (st = ParserState.error ∨ st = ParserState.recovering) →
      ∃ st2, (st2 = ParserState.error ∨ st2 = ParserState.recovering) ∧
        ∀ (errs : List Nat) (ln : Nat) (rest : List String),
          loadLoop ParsingMode.relaxed ⟨st, games, errs, ln⟩ (ls ++ rest) =
            loadLoop ParsingMode.relaxed ⟨st2, games, errs, ln + ls.length⟩ rest := by
  intro ls
  induction ls with
  | nil =>
    intro st games _ hst
    exact ⟨st, hst, fun errs ln rest => by simp⟩
  | cons l xs ih =>
    intro st games hall hst
    have hstep := recStep st games (Field.fromLine l) hst
      (hall l (List.mem_cons_self _ _))
    obtain ⟨st2, hst2, hrun⟩ := ih ParserState.recovering games
      (fun l' hl' => hall l' (List.mem_cons_of_mem _ hl')) (Or.inr rfl)
    refine ⟨st2, hst2, ?_⟩
    intro errs ln rest
    rw [List.cons_append, loadLoop]
    dsimp only
    rw [hstep]
    have hrec : ((ParserState.recovering, games) :
        ParserState × List Game).1 ≠ ParserState.error := by simp
    rw [if_neg hrec]
    rw [hrun errs (ln + 1) rest]
    have e2 : ln + 1 + xs.length = ln + (xs.length + 1) := by omega
    rw [e2]
    simp [List.length_cons]

/-! ### Claim C1 -/

/-- Claim C1 as amended: on an input of five well-formed 17-line records
whose third record has one malformed line strictly inside it (at 0-based
position k with 1 ≤ k ≤ 16), Strict mode returns 3 records (the first
two complete plus the partially assembled third) and exactly one error
line, the position of the malformed line; Relaxed mode returns 5 records
(the partial third plus the two complete records after it) and exactly
one error line as well, not one entry per line consumed while
recovering. -/
theorem c1_amended_strict_vs_relaxed :
    ∀ (b1 b2 b4 b5 pre post : List String) (bad : String) (k : Nat),
      wfBlock b1 = true → wfBlock b2 = true → wfBlock b4 = true →
      wfBlock b5 = true → 1 ≤ k → k ≤ 16 →
      pre.length = k → segMatches 0 pre = true →
      matchesState (stateAt k) (Field.fromLine bad) = false →
      post.length = 16 - k → segMatches (k + 1) post = true →
      (loadFromLines ParsingMode.strict
          (b1 ++ (b2 ++ (pre ++ (bad :: (post ++ (b4 ++ b5))))))).games.length = 3 ∧
      (loadFromLines ParsingMode.strict
          (b1 ++ (b2 ++ (pre ++ (bad :: (post ++ (b4 ++ b5))))))).errorLines = [35 + k] ∧
      (loadFromLines ParsingMode.relaxed
          (b1 ++ (b2 ++ (pre ++ (bad :: (post ++ (b4 ++ b5))))))).games.length = 5 ∧
      (loadFromLines ParsingMode.relaxed
          (b1 ++ (b2 ++ (pre ++ (bad :: (post ++ (b4 ++ b5))))))).errorLines = [35 + k] := by
  intro b1 b2 b4 b5 pre post bad k hw1 hw2 hw4 hw5 hk1 hk2 hplen hpseg hbad
    hqlen hqseg
  rw [wfBlock, Bool.and_eq_true, beq_iff_eq] at hw1 hw2 hw4 hw5
  obtain ⟨hlen1, hseg1⟩ := hw1
  obtain ⟨hlen2, hseg2⟩ := hw2
  obtain ⟨hlen4, hseg4⟩ := hw4
  obtain ⟨hlen5, hseg5⟩ := hw5
  obtain ⟨g1, hg1len, hg1ne, hrun1⟩ :=
    prefixRun b1 17 ParserState.game [] (by omega) (by omega) hlen1 hseg1
      (Or.inl rfl)
  rw [stateAt_17] at hrun1
  obtain ⟨g2, hg2len, hg2ne, hrun2⟩ :=
    prefixRun b2 17 ParserState.game g1 (by omega) (by omega) hlen2 hseg2
      (Or.inl rfl)
  rw [stateAt_17] at hrun2
  obtain ⟨g3, hg3len, hg3ne, hrun3⟩ :=
    prefixRun pre k ParserState.game g2 hk1 (by omega) hplen hpseg
      (Or.inl rfl)
  have hbadstep := errStep k hk1 hk2 (Field.fromLine bad) g3 hbad
  have hpostng : ∀ l ∈ post, isGameField (Field.fromLine l) = false := by
    refine segMatches_not_game post (k + 1) (by omega) (by omega) hqseg
  have hLoop : ∀ mode : ParsingMode,
      loadLoop mode PRun.init
          (b1 ++ (b2 ++ (pre ++ (bad :: (post ++ (b4 ++ b5)))))) =
        loadLoop mode ⟨stateAt k, g3, [], 0 + 17 + 17 + k⟩
          (bad :: (post ++ (b4 ++ b5))) := by
    intro mode
    simp only [PRun.init]
    rw [hrun1 mode [] 0 (b2 ++ (pre ++ (bad :: (post ++ (b4 ++ b5)))))]
    rw [hrun2 mode [] (0 + 17) (pre ++ (bad :: (post ++ (b4 ++ b5))))]
    rw [hrun3 mode [] (0 + 17 + 17) (bad :: (post ++ (b4 ++ b5)))]
  have hstrict : loadLoop ParsingMode.strict PRun.init
      (b1 ++ (b2 ++ (pre ++ (bad :: (post ++ (b4 ++ b5)))))) =
      ⟨ParserState.error, g3, [0 + 17 + 17 + k + 1], 0 + 17 + 17 + k + 1⟩ := by
    rw [hLoop ParsingMode.strict, loadLoop]
    dsimp only
    rw [hbadstep]
    rw [if_pos rfl]
    rfl
  obtain ⟨st2, hst2, hrunpost⟩ :=
    recoverRun post ParserState.error g3 hpostng (Or.inl rfl)
  obtain ⟨g4, hg4len, hg4ne, hrun4⟩ :=
    prefixRun b4 17 st2 g3 (by omega) (by omega) hlen4 hseg4
      (Or.inr hst2)
  rw [stateAt_17] at hrun4
  obtain ⟨g5, hg5len, hg5ne, hrun5⟩ :=
    prefixRun b5 17 ParserState.game g4 (by omega) (by omega) hlen5 hseg5
      (Or.inl rfl)
  rw [stateAt_17] at hrun5
  have hrelax : loadLoop ParsingMode.relaxed PRun.init
      (b1 ++ (b2 ++ (pre ++ (bad :: (post ++ (b4 ++ b5)))))) =
      ⟨ParserState.game, g5,
        [0 + 17 + 17 + k + 1],
        0 + 17 + 17 + k + 1 + post.length + 17 + 17⟩ := by
    rw [hLoop ParsingMode.relaxed, loadLoop]
    dsimp only
    rw [hbadstep]
    rw [if_pos rfl]
    dsimp only
    simp only [List.nil_append]
    rw [hrunpost [0 + 17 + 17 + k + 1] (0 + 17 + 17 + k + 1) (b4 ++ b5)]
    rw [hrun4 ParsingMode.relaxed [0 + 17 + 17 + k + 1]
      (0 + 17 + 17 + k + 1 + post.length) b5]
    have hrun5c : ∀ (errs : List Nat) (ln : Nat),
        loadLoop ParsingMode.relaxed
            ⟨ParserState.game, g4, errs, ln⟩ b5 =
          ⟨ParserState.game, g5, errs, ln + 17⟩ := by
      intro errs ln
      have h5 := hrun5 ParsingMode.relaxed errs ln []
      rw [List.append_nil] at h5
      rw [h5]
      rfl
    rw [hrun5c [0 + 17 + 17 + k + 1]
      (0 + 17 + 17 + k + 1 + post.length + 17)]
  have harith : 0 + 17 + 17 + k + 1 = 35 + k := by omega
  refine ⟨?_, ?_, ?_, ?_⟩
  · rw [loadFromLines_games, hstrict]
    simp only [List.length_map]
    simp at hg1len
    omega
  · rw [loadFromLines_errorLines, hstrict, harith]
  · rw [loadFromLines_games, hrelax]
    simp only [List.length_map]
    simp at hg1len
    omega
  · rw [loadFromLines_errorLines, hrelax, harith]

/-- Concrete well-formed 17-line record block with a given name. -/
def c1block (n : String) : List String :=
  ["Game\t" ++ n, "Cover", "Engine", "Setup", "Runtime", "Store", "Hints",
   "Genre", "Tags", "Year", "Dev", "Pub", "Version", "Status", "Added",
   "Updated", "IgdbId"]

/-- First nine lines of the third record of the concrete C1 input. -/
def c1pre : List String := (c1block "C").take 9

/-- Lines of the third record after its malformed line. -/
def c1post : List String := (c1block "C").drop 10

/-- Concrete input text of five records whose third record has the
malformed line Yr in place of its Year line. -/
def c1input : String :=
  interJoin "\n"
    (c1block "A" ++ c1block "B" ++ (c1pre ++ "Yr" :: c1post) ++
      c1block "D" ++ c1block "E")

set_option maxRecDepth 100000 in
/-- Counterexample to claim C1: on a concrete five-record input with one
malformed line in the middle of the third record, Strict mode returns 3
records (not 2: the partially assembled third record is kept), Relaxed
mode returns 5 records (not 4), and the Relaxed error-line list has one
entry (the malformed line, number 44) although eight lines are consumed
while the parser is in the Error or Recovering state. -/
theorem c1_counterexample :
    (load_from_string ParsingMode.strict c1input).games.length = 3 ∧
    (load_from_string ParsingMode.strict c1input).games.length ≠ 2 ∧
    (load_from_string ParsingMode.relaxed c1input).games.length = 5 ∧
    (load_from_string ParsingMode.relaxed c1input).games.length ≠ 4 ∧
    (load_from_string ParsingMode.relaxed c1input).errorLines = [44] ∧
    ((List.range (rustLines c1input).length).filter (fun i =>
        decide ((runPrefix (rustLines c1input) i).state = ParserState.error ∨
          (runPrefix (rustLines c1input) i).state =
            ParserState.recovering))).length = 8 ∧
    (load_from_string ParsingMode.relaxed c1input).errorLines.length ≠ 8 := by
  refine ⟨by decide, by decide, by decide, by decide, by decide, by decide,
    by decide⟩

set_option maxRecDepth 100000 in
/-- Witness for the amended claim C1 at the concrete five-record input. -/
theorem c1_witness :
    (loadFromLines ParsingMode.strict
        (c1block "A" ++ (c1block "B" ++ (c1pre ++ ("Yr" ::
          (c1post ++ (c1block "D" ++ c1block "E"))))))).games.length = 3 ∧
    (loadFromLines ParsingMode.strict
        (c1block "A" ++ (c1block "B" ++ (c1pre ++ ("Yr" ::
          (c1post ++ (c1block "D" ++ c1block "E"))))))).errorLines = [35 + 9] ∧
    (loadFromLines ParsingMode.relaxed
        (c1block "A" ++ (c1block "B" ++ (c1pre ++ ("Yr" ::
          (c1post ++ (c1block "D" ++ c1block "E"))))))).games.length = 5 ∧
    (loadFromLines ParsingMode.relaxed
        (c1block "A" ++ (c1block "B" ++ (c1pre ++ ("Yr" ::
          (c1post ++ (c1block "D" ++ c1block "E"))))))).errorLines = [35 + 9] :=
  c1_amended_strict_vs_relaxed (c1block "A") (c1block "B") (c1block "D")
    (c1block "E") c1pre c1post "Yr" 9 (by decide) (by decide) (by decide)
    (by decide) (by decide) (by decide) (by decide) (by decide) (by decide)
    (by decide) (by decide)

/-! ### String lemmas for the field round trip (claim C4) -/

theorem mk_data (s : String) : String.mk s.data = s := rfl

theorem splitOnce_append (c : Char) :
    ∀ (l r : List Char), c ∉ l → splitOnce c (l ++ c :: r) = some (l, r) := by
  intro l
  induction l with
  | nil => intro r _; simp [splitOnce]
  | cons x xs ih =>
    intro r hc
    have hx : x ≠ c := fun h => hc (h ▸ List.mem_cons_self _ _)
    rw [List.cons_append, splitOnce, if_neg hx,
      ih r (fun h => hc (List.mem_cons_of_mem _ h))]
    rfl

theorem split_line_labelWith (label payload : String)
    (hlab : label ≠ "") (htab : '\t' ∉ label.data) (hp : payload ≠ "") :
    split_line (labelWith label payload) = (some label, some payload) := by
  have hne : labelWith label payload ≠ "" := by
    intro h
    have := congrArg String.data h
    simp [labelWith] at this
  rw [split_line, if_neg hne]
  have hdata : (labelWith label payload).data =
      label.data ++ '\t' :: payload.data := rfl
  rw [hdata, splitOnce_append '\t' label.data payload.data htab]
  have hpd : payload.data ≠ [] := by
    intro h
    exact hp (by rw [← mk_data payload, h])
  simp [hpd, mk_data]

theorem splitChar_not_mem (c : Char) :
    ∀ l : List Char, c ∉ l → splitChar c l = [l] := by
  intro l
  induction l with
  | nil => intro _; rfl
  | cons x xs ih =>
    intro hc
    have hx : x ≠ c := fun h => hc (h ▸ List.mem_cons_self _ _)
    rw [splitChar, if_neg hx, ih (fun h => hc (List.mem_cons_of_mem _ h))]

theorem splitChar_append (c : Char) :
    ∀ (l r : List Char), c ∉ l →
      splitChar c (l ++ c :: r) = l :: splitChar c r := by
  intro l
  induction l with
  | nil => intro r _; simp [splitChar]
  | cons x xs ih =>
    intro r hc
    have hx : x ≠ c := fun h => hc (h ▸ List.mem_cons_self _ _)
    rw [List.cons_append, splitChar, if_neg hx,
      ih r (fun h => hc (List.mem_cons_of_mem _ h))]

theorem charTrim_cons_space (l : List Char) :
    charTrim (' ' :: l) = charTrim l := by
  simp [charTrim, List.dropWhile, isWS]

theorem digitChar_isDigit (d : Nat) (h : d < 10) :
    (digitChar d).isDigit = true := by
  interval_cases d <;> decide

theorem digitChar_val (d : Nat) (h : d < 10) :
    (digitChar d).toNat - 48 = d := by
  interval_cases d <;> decide

theorem digitsVal_append (xs : List Char) (c : Char) :
    digitsVal (xs ++ [c]) = digitsVal xs * 10 + (c.toNat - 48) := by
  unfold digitsVal
  rw [List.foldl_append]
  rfl

theorem natDigitsAux_val :
    ∀ (fuel n : Nat), n ≤ fuel →
      digitsVal (natDigitsAux fuel n).reverse = n := by
  intro fuel
  induction fuel with
  | zero => intro n h; interval_cases n; rfl
  | succ fuel ih =>
    intro n h
    cases n with
    | zero => rfl
    | succ m =>
      rw [show natDigitsAux (fuel + 1) (m + 1) =
        digitChar ((m + 1) % 10) :: natDigitsAux fuel ((m + 1) / 10) from rfl]
      rw [List.reverse_cons, digitsVal_append]
      have hdiv : (m + 1) / 10 ≤ fuel := by
        have := Nat.div_lt_self (Nat.succ_pos m) (by omega : 1 < 10)
        omega
      rw [ih ((m + 1) / 10) hdiv, digitChar_val _ (Nat.mod_lt _ (by omega))]
      have := Nat.div_add_mod (m + 1) 10
      omega

theorem natDigitsAux_digits :
    ∀ (fuel n : Nat), ∀ c ∈ natDigitsAux fuel n, c.isDigit = true := by
  intro fuel
  induction fuel with
  | zero => intro n c hc; simp [natDigitsAux] at hc
  | succ fuel ih =>
    intro n c hc
    cases n with
    | zero => simp [natDigitsAux] at hc
    | succ m =>
      rw [show natDigitsAux (fuel + 1) (m + 1) =
        digitChar ((m + 1) % 10) :: natDigitsAux fuel ((m + 1) / 10) from rfl] at hc
      rcases List.mem_cons.mp hc with rfl | hc2
      · exact digitChar_isDigit _ (Nat.mod_lt _ (by omega))
      · exact ih _ c hc2

theorem natDigits_val (n : Nat) : digitsVal (natDigits n) = n := by
  by_cases h : n = 0
  · subst h; rfl
  · rw [natDigits, if_neg h]
    exact natDigitsAux_val n n le_rfl

theorem natDigits_digits (n : Nat) :
    ∀ c ∈ natDigits n, c.isDigit = true := by
  intro c hc
  by_cases h : n = 0
  · subst h; simp [natDigits] at hc; subst hc; decide
  · rw [natDigits, if_neg h, List.mem_reverse] at hc
    exact natDigitsAux_digits n n c hc

theorem natDigits_ne_nil (n : Nat) : natDigits n ≠ [] := by
  by_cases h : n = 0
  · subst h; simp [natDigits]
  · rw [natDigits, if_neg h]
    obtain ⟨m, rfl⟩ := Nat.exists_eq_succ_of_ne_zero h
    simp [natDigitsAux]

theorem digitsVal_zeros (z : Nat) :
    ∀ ds : List Char, digitsVal (List.replicate z '0' ++ ds) = digitsVal ds := by
  induction z with
  | zero => intro ds; rfl
  | succ z ih =>
    intro ds
    rw [List.replicate_succ, List.cons_append]
    show digitsVal (List.replicate z '0' ++ ds) = digitsVal ds
    exact ih ds

theorem digitsToNat_pad (w n : Nat) :
    digitsToNat (padDigits w (natDigits n)) = some n := by
  rw [digitsToNat, if_pos, digitsVal, ← digitsVal]
  · rw [padDigits, digitsVal_zeros, natDigits_val]
  · constructor
    · rw [padDigits]
      intro h
      rcases List.append_eq_nil.mp h with ⟨_, h2⟩
      exact natDigits_ne_nil n h2
    · rw [padDigits, List.all_append, Bool.and_eq_true]
      constructor
      · rw [List.all_eq_true]
        intro c hc
        rw [List.eq_of_mem_replicate hc]
        decide
      · rw [List.all_eq_true]
        exact natDigits_digits n

theorem digitsToNat_natDigits (n : Nat) :
    digitsToNat (natDigits n) = some n := by
  rw [digitsToNat, if_pos]
  · rw [natDigits_val]
  · exact ⟨natDigits_ne_nil n, List.all_eq_true.mpr (natDigits_digits n)⟩

theorem isDigit_ne_dash {c : Char} (h : c.isDigit = true) : c ≠ '-' := by
  intro hc
  subst hc
  simp at h

theorem padDigits_no_dash (w n : Nat) : '-' ∉ padDigits w (natDigits n) := by
  intro hc
  rw [padDigits] at hc
  rcases List.mem_append.mp hc with h | h
  · have := List.eq_of_mem_replicate h
    simp at this
  · exact isDigit_ne_dash (natDigits_digits n '-' h) rfl

/-- Parsing inverts formatting on valid dates. -/
theorem parseDate_formatDate (d : NDate) (hv : validDate d = true) :
    parseDate (formatDate d) = d := by
  obtain ⟨y, m, dd⟩ := d
  rw [parseDate]
  have hdata : (formatDate ⟨y, m, dd⟩).data =
      padDigits 4 (natDigits y) ++ '-' ::
        (padDigits 2 (natDigits m) ++ '-' :: padDigits 2 (natDigits dd)) := rfl
  rw [hdata, splitChar_append '-' _ _ (padDigits_no_dash 4 y),
    splitChar_append '-' _ _ (padDigits_no_dash 2 m),
    splitChar_not_mem '-' _ (padDigits_no_dash 2 dd)]
  dsimp only
  rw [digitsToNat_pad, digitsToNat_pad, digitsToNat_pad]
  dsimp only
  rw [if_pos hv]

theorem splitChar_cons_ne (c x : Char) (l : List Char) (h : x ≠ c)
    {s : List Char} {ss : List (List Char)} (hs : splitChar c l = s :: ss) :
    splitChar c (x :: l) = (x :: s) :: ss := by
  rw [splitChar, if_neg h, hs]

theorem commaJoin_split :
    ∀ (xs : List (List Char)) (x : List Char), ',' ∉ x →
      (∀ y ∈ xs, ',' ∉ y) →
      splitChar ',' (joinWith [',', ' '] (x :: xs)) =
        x :: xs.map (fun y => ' ' :: y) := by
  intro xs
  induction xs with
  | nil =>
    intro x hx _
    simpa [joinWith] using splitChar_not_mem ',' x hx
  | cons y ys ih =>
    intro x hx hall
    have hjoin : joinWith [',', ' '] (x :: y :: ys) =
        x ++ ',' :: ' ' :: joinWith [',', ' '] (y :: ys) := by
      rw [joinWith, List.append_assoc]
      rfl
    rw [hjoin, splitChar_append ',' x _ hx]
    have hih := ih y (hall y (List.mem_cons_self _ _))
      (fun z hz => hall z (List.mem_cons_of_mem _ hz))
    rw [splitChar_cons_ne ',' ' ' _ (by decide) hih]
    rfl

theorem spaceJoin_split :
    ∀ (xs : List (List Char)) (x : List Char) (c : Char), c ∉ x →
      (∀ y ∈ xs, c ∉ y) →
      splitChar c (joinWith [c] (x :: xs)) = x :: xs := by
  intro xs
  induction xs with
  | nil =>
    intro x c hx _
    simpa [joinWith] using splitChar_not_mem c x hx
  | cons y ys ih =>
    intro x c hx hall
    have hjoin : joinWith [c] (x :: y :: ys) =
        x ++ c :: joinWith [c] (y :: ys) := by
      rw [joinWith, List.append_assoc]
      rfl
    rw [hjoin, splitChar_append c x _ hx]
    rw [ih y c (hall y (List.mem_cons_self _ _))
      (fun z hz => hall z (List.mem_cons_of_mem _ hz))]

theorem commaSplit_joinComma (items : List String) (hne : items ≠ [])
    (hall : ∀ i ∈ items,
      i ≠ "" ∧ charTrim i.data = i.data ∧ ',' ∉ i.data) :
    commaSplit (joinComma items) = items := by
  obtain ⟨i0, rest, rfl⟩ := List.exists_cons_of_ne_nil hne
  have hjc : (joinComma (i0 :: rest)).data =
      joinWith [',', ' '] (i0.data :: rest.map String.data) := rfl
  rw [commaSplit, hjc,
    commaJoin_split (rest.map String.data) i0.data
      (hall i0 (List.mem_cons_self _ _)).2.2
      (by
        intro y hy
        obtain ⟨i, hi, rfl⟩ := List.mem_map.mp hy
        exact (hall i (List.mem_cons_of_mem _ hi)).2.2)]
  rw [List.map_cons]
  congr 1
  · rw [(hall i0 (List.mem_cons_self _ _)).2.1, mk_data]
  · rw [List.map_map, List.map_map]
    refine (List.map_congr_left ?_).trans (List.map_id rest)
    intro i hi
    show String.mk (charTrim (' ' :: i.data)) = id i
    rw [charTrim_cons_space, (hall i (List.mem_cons_of_mem _ hi)).2.1,
      mk_data]
    rfl

theorem joinWith_ne_nil (sep x : List Char) (xs : List (List Char))
    (hx : x ≠ []) : joinWith sep (x :: xs) ≠ [] := by
  cases xs with
  | nil => simpa [joinWith] using hx
  | cons y ys =>
    rw [joinWith]
    intro h
    rcases List.append_eq_nil.mp h with ⟨h1, _⟩
    rcases List.append_eq_nil.mp h1 with ⟨h2, _⟩
    exact hx h2

theorem data_ne_nil {s : String} (h : s ≠ "") : s.data ≠ [] := by
  intro hc
  exact h (by rw [← mk_data s, hc])

theorem joinComma_ne_empty (items : List String) (hne : items ≠ [])
    (h0 : ∀ i ∈ items, i ≠ "") : joinComma items ≠ "" := by
  obtain ⟨i0, rest, rfl⟩ := List.exists_cons_of_ne_nil hne
  intro h
  exact joinWith_ne_nil [',', ' '] i0.data (rest.map String.data)
    (data_ne_nil (h0 i0 (List.mem_cons_self _ _))) (congrArg String.data h)

theorem storeSplit_render (links : List StoreLink) (hne : links ≠ [])
    (hall : ∀ l ∈ links, l.url ≠ "" ∧ charTrim l.url.data = l.url.data ∧
      ' ' ∉ l.url.data ∧ StoreLink.fromUrl l.url = l) :
    storeSplit (renderStoreLinks links) = links := by
  obtain ⟨l0, rest, rfl⟩ := List.exists_cons_of_ne_nil hne
  have hjc : (renderStoreLinks (l0 :: rest)).data =
      joinWith [' ']
        (l0.url.data :: (rest.map StoreLink.url).map String.data) := rfl
  rw [storeSplit, hjc,
    spaceJoin_split ((rest.map StoreLink.url).map String.data) l0.url.data ' '
      (hall l0 (List.mem_cons_self _ _)).2.2.1
      (by
        intro y hy
        rw [List.map_map] at hy
        obtain ⟨l, hl, rfl⟩ := List.mem_map.mp hy
        exact (hall l (List.mem_cons_of_mem _ hl)).2.2.1)]
  rw [List.map_cons]
  congr 1
  · rw [(hall l0 (List.mem_cons_self _ _)).2.1, mk_data]
    exact (hall l0 (List.mem_cons_self _ _)).2.2.2
  · rw [List.map_map, List.map_map]
    refine (List.map_congr_left ?_).trans (List.map_id rest)
    intro l hl
    show StoreLink.fromUrl (String.mk (charTrim l.url.data)) = id l
    rw [(hall l (List.mem_cons_of_mem _ hl)).2.1, mk_data]
    exact (hall l (List.mem_cons_of_mem _ hl)).2.2.2

theorem renderStoreLinks_ne_empty (links : List StoreLink)
    (hne : links ≠ []) (h0 : ∀ l ∈ links, l.url ≠ "") :
    renderStoreLinks links ≠ "" := by
  obtain ⟨l0, rest, rfl⟩ := List.exists_cons_of_ne_nil hne
  intro h
  exact joinWith_ne_nil [' '] l0.url.data
    ((rest.map StoreLink.url).map String.data)
    (data_ne_nil (h0 l0 (List.mem_cons_self _ _))) (congrArg String.data h)

theorem formatDate_ne_empty (d : NDate) : formatDate d ≠ "" := by
  intro h
  have hd : padDigits 4 (natDigits d.year) ++ '-' ::
      (padDigits 2 (natDigits d.month) ++ '-' :: padDigits 2 (natDigits d.day)) =
      [] := congrArg String.data h
  rcases List.append_eq_nil.mp hd with ⟨_, h2⟩
  exact List.cons_ne_nil _ _ h2

theorem gsRender_ne_empty (gs : GameStatus)
    (h : gs.status ≠ Status.unknown) : gs.render ≠ "" := by
  intro hc
  have hd := congrArg String.data hc
  cases hs : gs.status <;> simp [GameStatus.render, hs] at hd <;>
    exact h hs

theorem from_line_render (gs : GameStatus)
    (h : gs.status ≠ Status.unknown) :
    (GameStatus.from_line gs.render).status = gs.status := by
  obtain ⟨st, msg⟩ := gs
  cases st <;> simp_all [GameStatus.render, GameStatus.from_line]

/-! ### Well-formed fields and the round trip -/

/-- Well-formed payload of a single-valued string field: present payloads
are non-empty. -/
def wfStr : Option String → Bool
  | none => true
  | some s => decide (s ≠ "")

/-- Well-formed item of a comma list: non-empty, trimmed, comma-free. -/
def wfItem (i : String) : Bool :=
  decide (i ≠ "" ∧ charTrim i.data = i.data ∧ ',' ∉ i.data)

/-- Well-formed comma-list payload: non-empty list of well-formed items. -/
def wfList : Option (List String) → Bool
  | none => true
  | some items => !items.isEmpty && items.all wfItem

/-- Well-formed store link: non-empty trimmed space-free url from which
the link itself is derived (as the classifier produces them). -/
def wfLink (l : StoreLink) : Bool :=
  decide (l.url ≠ "" ∧ charTrim l.url.data = l.url.data ∧
    ' ' ∉ l.url.data ∧ StoreLink.fromUrl l.url = l)

/-- Well-formed store payload. -/
def wfStore : Option (List StoreLink) → Bool
  | none => true
  | some links => !links.isEmpty && links.all wfLink

/-- Well-formed Field value: payloads as the classifier itself produces
from a well-formed line.  The Unknown variant is never well-formed. -/
def wfField : Field → Bool
  | .game p => wfStr p
  | .cover p => wfStr p
  | .engine p => wfStr p
  | .setup p => wfStr p
  | .runtime p => wfStr p
  | .hints p => wfStr p
  | .version p => wfStr p
  | .year p => wfStr p
  | .dev p => wfList p
  | .publi p => wfList p
  | .genres p => wfList p
  | .tags p => wfList p
  | .store p => wfStore p
  | .status _ => true
  | .added d => validDate d
  | .updated d => validDate d
  | .igdbId _ => true
  | .unknown _ => false

theorem fromLine_game (s : String) (h : s ≠ "") :
    Field.fromLine (labelWith "Game" s) = Field.game (some s) := by
  unfold Field.fromLine
  rw [split_line_labelWith "Game" s (by decide) (by decide) h]
  rfl

theorem fromLine_cover (s : String) (h : s ≠ "") :
    Field.fromLine (labelWith "Cover" s) = Field.cover (some s) := by
  unfold Field.fromLine
  rw [split_line_labelWith "Cover" s (by decide) (by decide) h]
  rfl

theorem fromLine_engine (s : String) (h : s ≠ "") :
    Field.fromLine (labelWith "Engine" s) = Field.engine (some s) := by
  unfold Field.fromLine
  rw [split_line_labelWith "Engine" s (by decide) (by decide) h]
  rfl

theorem fromLine_setup (s : String) (h : s ≠ "") :
    Field.fromLine (labelWith "Setup" s) = Field.setup (some s) := by
  unfold Field.fromLine
  rw [split_line_labelWith "Setup" s (by decide) (by decide) h]
  rfl

theorem fromLine_runtime (s : String) (h : s ≠ "") :
    Field.fromLine (labelWith "Runtime" s) = Field.runtime (some s) := by
  unfold Field.fromLine
  rw [split_line_labelWith "Runtime" s (by decide) (by decide) h]
  rfl

theorem fromLine_hints (s : String) (h : s ≠ "") :
    Field.fromLine (labelWith "Hints" s) = Field.hints (some s) := by
  unfold Field.fromLine
  rw [split_line_labelWith "Hints" s (by decide) (by decide) h]
  rfl

theorem fromLine_dev (s : String) (h : s ≠ "") :
    Field.fromLine (labelWith "Dev" s) = Field.dev (some (commaSplit s)) := by
  unfold Field.fromLine
  rw [split_line_labelWith "Dev" s (by decide) (by decide) h]
  rfl

theorem fromLine_publi (s : String) (h : s ≠ "") :
    Field.fromLine (labelWith "Pub" s) = Field.publi (some (commaSplit s)) := by
  unfold Field.fromLine
  rw [split_line_labelWith "Pub" s (by decide) (by decide) h]
  rfl

theorem fromLine_version (s : String) (h : s ≠ "") :
    Field.fromLine (labelWith "Version" s) = Field.version (some s) := by
  unfold Field.fromLine
  rw [split_line_labelWith "Version" s (by decide) (by decide) h]
  rfl

theorem fromLine_status (s : String) (h : s ≠ "") :
    Field.fromLine (labelWith "Status" s) = Field.status (GameStatus.from_line s) := by
  unfold Field.fromLine
  rw [split_line_labelWith "Status" s (by decide) (by decide) h]
  rfl

theorem fromLine_store (s : String) (h : s ≠ "") :
    Field.fromLine (labelWith "Store" s) = Field.store (some (storeSplit s)) := by
  unfold Field.fromLine
  rw [split_line_labelWith "Store" s (by decide) (by decide) h]
  rfl

theorem fromLine_genres (s : String) (h : s ≠ "") :
    Field.fromLine (labelWith "Genre" s) = Field.genres (some (commaSplit s)) := by
  unfold Field.fromLine
  rw [split_line_labelWith "Genre" s (by decide) (by decide) h]
  rfl

theorem fromLine_tags (s : String) (h : s ≠ "") :
    Field.fromLine (labelWith "Tags" s) = Field.tags (some (commaSplit s)) := by
  unfold Field.fromLine
  rw [split_line_labelWith "Tags" s (by decide) (by decide) h]
  rfl

theorem fromLine_year (s : String) (h : s ≠ "") :
    Field.fromLine (labelWith "Year" s) = Field.year (some s) := by
  unfold Field.fromLine
  rw [split_line_labelWith "Year" s (by decide) (by decide) h]
  rfl

theorem fromLine_added (s : String) (h : s ≠ "") :
    Field.fromLine (labelWith "Added" s) = Field.added (parseDate s) := by
  unfold Field.fromLine
  rw [split_line_labelWith "Added" s (by decide) (by decide) h]
  rfl

theorem fromLine_updated (s : String) (h : s ≠ "") :
    Field.fromLine (labelWith "Updated" s) = Field.updated (parseDate s) := by
  unfold Field.fromLine
  rw [split_line_labelWith "Updated" s (by decide) (by decide) h]
  rfl

theorem fromLine_igdbId (s : String) (h : s ≠ "") :
    Field.fromLine (labelWith "IgdbId" s) = Field.igdbId (strToNatOpt s) := by
  unfold Field.fromLine
  rw [split_line_labelWith "IgdbId" s (by decide) (by decide) h]
  rfl

theorem wfList_spec {items : List String}
    (h : wfList (some items) = true) :
    items ≠ [] ∧ ∀ i ∈ items,
      i ≠ "" ∧ charTrim i.data = i.data ∧ ',' ∉ i.data := by
  have h2 : (!items.isEmpty && items.all wfItem) = true := h
  rw [Bool.and_eq_true] at h2
  obtain ⟨h1, h3⟩ := h2
  refine ⟨?_, fun i hi => of_decide_eq_true (List.all_eq_true.mp h3 i hi)⟩
  intro hc
  subst hc
  simp at h1

theorem wfStore_spec {links : List StoreLink}
    (h : wfStore (some links) = true) :
    links ≠ [] ∧ ∀ l ∈ links,
      l.url ≠ "" ∧ charTrim l.url.data = l.url.data ∧
        ' ' ∉ l.url.data ∧ StoreLink.fromUrl l.url = l := by
  have h2 : (!links.isEmpty && links.all wfLink) = true := h
  rw [Bool.and_eq_true] at h2
  obtain ⟨h1, h3⟩ := h2
  refine ⟨?_, fun l hl => of_decide_eq_true (List.all_eq_true.mp h3 l hl)⟩
  intro hc
  subst hc
  simp at h1

theorem status_roundtrip (st : Status) (msg : Option String)
    (h : st ≠ Status.unknown) :
    Field.eqv (Field.fromLine (Field.render (Field.status ⟨st, msg⟩)))
      (Field.status ⟨st, msg⟩) = true := by
  have hr : Field.render (Field.status ⟨st, msg⟩) =
      labelWith "Status" (GameStatus.render ⟨st, msg⟩) := by
    cases st
    · exact absurd rfl h
    all_goals rfl
  rw [hr, fromLine_status _ (gsRender_ne_empty ⟨st, msg⟩ h)]
  simp only [Field.eqv, GameStatus.eqv, beq_iff_eq]
  exact from_line_render ⟨st, msg⟩ h

/-- C4: at the concrete Field value Unknown (some "x"), rendering via
Display and re-classifying via Field::from does not return an equal
Field: the rendered line "Unknown field x" is classified as
Unknown (some "Unknown field x"), so the claimed round trip for every
variant fails on the Unknown variant. -/
theorem c4_counterexample :
    Field.eqv (Field.fromLine (Field.render (Field.unknown (some "x"))))
      (Field.unknown (some "x")) = false := by decide

/-- C4 (amended): for every Field value except the Unknown variant, with
a payload as the classifier itself produces (present strings non-empty,
lists non-empty with trimmed comma-free items, store links derived from
their own trimmed space-free urls, valid dates), rendering the field
via Display and re-classifying the line with Field::from yields a Field
equal to the original under the derived equality, which on the status
variant ignores the comment. -/
theorem c4_amended_roundtrip (f : Field) (hwf : wfField f = true) :
    Field.eqv (Field.fromLine (Field.render f)) f = true := by
  cases f with
  | game p =>
    cases p with
    | none => decide
    | some s =>
      have hs : s ≠ "" := of_decide_eq_true hwf
      show Field.eqv (Field.fromLine (labelWith "Game" s))
        (Field.game (some s)) = true
      rw [fromLine_game s hs]
      simp [Field.eqv]
  | cover p =>
    cases p with
    | none => decide
    | some s =>
      have hs : s ≠ "" := of_decide_eq_true hwf
      show Field.eqv (Field.fromLine (labelWith "Cover" s))
        (Field.cover (some s)) = true
      rw [fromLine_cover s hs]
      simp [Field.eqv]
  | engine p =>
    cases p with
    | none => decide
    | some s =>
      have hs : s ≠ "" := of_decide_eq_true hwf
      show Field.eqv (Field.fromLine (labelWith "Engine" s))
        (Field.engine (some s)) = true
      rw [fromLine_engine s hs]
      simp [Field.eqv]
  | setup p =>
    cases p with
    | none => decide
    | some s =>
      have hs : s ≠ "" := of_decide_eq_true hwf
      show Field.eqv (Field.fromLine (labelWith "Setup" s))
        (Field.setup (some s)) = true
      rw [fromLine_setup s hs]
      simp [Field.eqv]
  | runtime p =>
    cases p with
    | none => decide
    | some s =>
      have hs : s ≠ "" := of_decide_eq_true hwf
      show Field.eqv (Field.fromLine (labelWith "Runtime" s))
        (Field.runtime (some s)) = true
      rw [fromLine_runtime s hs]
      simp [Field.eqv]
  | hints p =>
    cases p with
    | none => decide
    | some s =>
      have hs : s ≠ "" := of_decide_eq_true hwf
      show Field.eqv (Field.fromLine (labelWith "Hints" s))
        (Field.hints (some s)) = true
      rw [fromLine_hints s hs]
      simp [Field.eqv]
  | dev p =>
    cases p with
    | none => decide
    | some items =>
      obtain ⟨hne, hall⟩ := wfList_spec hwf
      have hj : joinComma items ≠ "" :=
        joinComma_ne_empty items hne (fun i hi => (hall i hi).1)
      show Field.eqv (Field.fromLine (labelWith "Dev" (joinComma items)))
        (Field.dev (some items)) = true
      rw [fromLine_dev _ hj, commaSplit_joinComma items hne hall]
      simp [Field.eqv]
  | publi p =>
    cases p with
    | none => decide
    | some items =>
      obtain ⟨hne, hall⟩ := wfList_spec hwf
      have hj : joinComma items ≠ "" :=
        joinComma_ne_empty items hne (fun i hi => (hall i hi).1)
      show Field.eqv (Field.fromLine (labelWith "Pub" (joinComma items)))
        (Field.publi (some items)) = true
      rw [fromLine_publi _ hj, commaSplit_joinComma items hne hall]
      simp [Field.eqv]
  | version p =>
    cases p with
    | none => decide
    | some s =>
      have hs : s ≠ "" := of_decide_eq_true hwf
      show Field.eqv (Field.fromLine (labelWith "Version" s))
        (Field.version (some s)) = true
      rw [fromLine_version s hs]
      simp [Field.eqv]
  | status gs =>
    obtain ⟨st, msg⟩ := gs
    by_cases hst : st = Status.unknown
    · subst hst
      have hfl : Field.fromLine "Status" =
          Field.status ⟨Status.unknown, none⟩ := by decide
      show Field.eqv (Field.fromLine "Status")
        (Field.status ⟨Status.unknown, msg⟩) = true
      rw [hfl]
      rfl
    · exact status_roundtrip st msg hst
  | store p =>
    cases p with
    | none => decide
    | some links =>
      obtain ⟨hne, hall⟩ := wfStore_spec hwf
      have hj : renderStoreLinks links ≠ "" :=
        renderStoreLinks_ne_empty links hne (fun l hl => (hall l hl).1)
      show Field.eqv
        (Field.fromLine (labelWith "Store" (renderStoreLinks links)))
        (Field.store (some links)) = true
      rw [fromLine_store _ hj, storeSplit_render links hne hall]
      simp [Field.eqv]
  | genres p =>
    cases p with
    | none => decide
    | some items =>
      obtain ⟨hne, hall⟩ := wfList_spec hwf
      have hj : joinComma items ≠ "" :=
        joinComma_ne_empty items hne (fun i hi => (hall i hi).1)
      show Field.eqv (Field.fromLine (labelWith "Genre" (joinComma items)))
        (Field.genres (some items)) = true
      rw [fromLine_genres _ hj, commaSplit_joinComma items hne hall]
      simp [Field.eqv]
  | tags p =>
    cases p with
    | none => decide
    | some items =>
      obtain ⟨hne, hall⟩ := wfList_spec hwf
      have hj : joinComma items ≠ "" :=
        joinComma_ne_empty items hne (fun i hi => (hall i hi).1)
      show Field.eqv (Field.fromLine (labelWith "Tags" (joinComma items)))
        (Field.tags (some items)) = true
      rw [fromLine_tags _ hj, commaSplit_joinComma items hne hall]
      simp [Field.eqv]
  | year p =>
    cases p with
    | none => decide
    | some s =>
      have hs : s ≠ "" := of_decide_eq_true hwf
      show Field.eqv (Field.fromLine (labelWith "Year" s))
        (Field.year (some s)) = true
      rw [fromLine_year s hs]
      simp [Field.eqv]
  | added d =>
    have hv : validDate d = true := hwf
    show Field.eqv (Field.fromLine (labelWith "Added" (formatDate d)))
      (Field.added d) = true
    rw [fromLine_added _ (formatDate_ne_empty d), parseDate_formatDate d hv]
    simp [Field.eqv]
  | updated d =>
    have hv : validDate d = true := hwf
    show Field.eqv (Field.fromLine (labelWith "Updated" (formatDate d)))
      (Field.updated d) = true
    rw [fromLine_updated _ (formatDate_ne_empty d), parseDate_formatDate d hv]
    simp [Field.eqv]
  | igdbId p =>
    cases p with
    | none => decide
    | some n =>
      have hne : String.mk (natDigits n) ≠ "" := by
        intro hc
        exact natDigits_ne_nil n (congrArg String.data hc)
      show Field.eqv
        (Field.fromLine (labelWith "IgdbId" (String.mk (natDigits n))))
        (Field.igdbId (some n)) = true
      rw [fromLine_igdbId _ hne]
      have hs : strToNatOpt (String.mk (natDigits n)) = some n :=
        digitsToNat_natDigits n
      rw [hs]
      simp [Field.eqv]
  | unknown p => simp [wfField] at hwf

/-- C4 witness: the round trip at the concrete well-formed value
Dev (some ["Toto", "Toto2"]). -/
theorem c4_witness :
    wfField (Field.dev (some ["Toto", "Toto2"])) = true ∧
      Field.eqv
        (Field.fromLine (Field.render (Field.dev (some ["Toto", "Toto2"]))))
        (Field.dev (some ["Toto", "Toto2"])) = true :=
  ⟨by decide,
    c4_amended_roundtrip (Field.dev (some ["Toto", "Toto2"])) (by decide)⟩

end Pobsd
